import Mathlib

/-
Verification of the Artemis Global Tracker binary SBD message translator
(Artemis_Global_Tracker_Message_Translator.py).

Modelling conventions (shallow embedding):
  * byte buffers are List Nat with entries < 256 in practice;
  * Python floats are idealised as exact rationals (so the decimal scale
    factors 1e-2, 1e-3, 1e-7 are the exact rationals 1/100, 1/1000, 1/10^7);
  * numpy float32 payload values are modelled by their 4-byte little-endian
    bit pattern (a Nat < 2^32); conversions between float32 and other numeric
    kinds never happen for legal registry values and are modelled as errors;
  * the Python exceptions raised by decode_message are mapped onto the error
    taxonomy of the specification: AssertionError on the STX marker becomes
    framing, the enum ValueError becomes unknownField, IndexError and
    struct.error and the numpy frombuffer size error become truncated, the
    two checksum AssertionErrors become checksumMismatch, and the ValueError
    of the datetime constructor becomes badValue.
-/

namespace AGT

set_option maxHeartbeats 2000000
set_option maxRecDepth 100000

inductive Dtype
  | uint8
  | uint16
  | uint32
  | int16
  | int32
  | float32
deriving DecidableEq

def Dtype.itemsize : Dtype → Nat
  | .uint8 => 1
  | .uint16 => 2
  | .uint32 => 4
  | .int16 => 2
  | .int32 => 4
  | .float32 => 4

def Dtype.isSigned : Dtype → Bool
  | .int16 => true
  | .int32 => true
  | _ => false

def Dtype.isIntLike : Dtype → Bool
  | .float32 => false
  | _ => true

/-- Wire shape of a field: a plain byte length (0 for markers, 7 for the
composed date-time, 4 for the RBHEAD blob), a scalar dtype, or a
(dtype, count) array, mirroring the FIELD_TYPE dictionary entries. -/
inductive FType
  | len (n : Nat)
  | scalar (d : Dtype)
  | arr (d : Dtype) (count : Nat)
deriving DecidableEq

/-- One member of the TrackerMessageFields enumeration: its name and the
one-byte identifier. -/
structure Field where
  name : String
  id : Nat
deriving DecidableEq

/-- The TrackerMessageFields enumeration, in declaration order (the order
Python iterates it during encoding). -/
def trackerMessageFields : List Field :=
  [⟨"STX", 0x02⟩, ⟨"ETX", 0x03⟩, ⟨"SWVER", 0x04⟩, ⟨"SOURCE", 0x08⟩,
   ⟨"BATTV", 0x09⟩, ⟨"PRESS", 0x0a⟩, ⟨"TEMP", 0x0b⟩, ⟨"HUMID", 0x0c⟩,
   ⟨"YEAR", 0x0d⟩, ⟨"MONTH", 0x0e⟩, ⟨"DAY", 0x0f⟩, ⟨"HOUR", 0x10⟩,
   ⟨"MIN", 0x11⟩, ⟨"SEC", 0x12⟩, ⟨"MILLIS", 0x13⟩, ⟨"DATETIME", 0x14⟩,
   ⟨"LAT", 0x15⟩, ⟨"LON", 0x16⟩, ⟨"ALT", 0x17⟩, ⟨"SPEED", 0x18⟩,
   ⟨"HEAD", 0x19⟩, ⟨"SATS", 0x1a⟩, ⟨"PDOP", 0x1b⟩, ⟨"FIX", 0x1c⟩,
   ⟨"GEOFSTAT", 0x1d⟩, ⟨"USERVAL1", 0x20⟩, ⟨"USERVAL2", 0x21⟩,
   ⟨"USERVAL3", 0x22⟩, ⟨"USERVAL4", 0x23⟩, ⟨"USERVAL5", 0x24⟩,
   ⟨"USERVAL6", 0x25⟩, ⟨"USERVAL7", 0x26⟩, ⟨"USERVAL8", 0x27⟩,
   ⟨"MOFIELDS", 0x30⟩, ⟨"FLAGS1", 0x31⟩, ⟨"FLAGS2", 0x32⟩, ⟨"DEST", 0x33⟩,
   ⟨"HIPRESS", 0x34⟩, ⟨"LOPRESS", 0x35⟩, ⟨"HITEMP", 0x36⟩,
   ⟨"LOTEMP", 0x37⟩, ⟨"HIHUMID", 0x38⟩, ⟨"LOHUMID", 0x39⟩,
   ⟨"GEOFNUM", 0x3a⟩, ⟨"GEOF1LAT", 0x3b⟩, ⟨"GEOF1LON", 0x3c⟩,
   ⟨"GEOF1RAD", 0x3d⟩, ⟨"GEOF2LAT", 0x3e⟩, ⟨"GEOF2LON", 0x3f⟩,
   ⟨"GEOF2RAD", 0x40⟩, ⟨"GEOF3LAT", 0x41⟩, ⟨"GEOF3LON", 0x42⟩,
   ⟨"GEOF3RAD", 0x43⟩, ⟨"GEOF4LAT", 0x44⟩, ⟨"GEOF4LON", 0x45⟩,
   ⟨"GEOF4RAD", 0x46⟩, ⟨"WAKEINT", 0x47⟩, ⟨"ALARMINT", 0x48⟩,
   ⟨"TXINT", 0x49⟩, ⟨"LOWBATT", 0x4a⟩, ⟨"DYNMODEL", 0x4b⟩,
   ⟨"RBHEAD", 0x52⟩, ⟨"USERFUNC1", 0x58⟩, ⟨"USERFUNC2", 0x59⟩,
   ⟨"USERFUNC3", 0x5a⟩, ⟨"USERFUNC4", 0x5b⟩, ⟨"USERFUNC5", 0x5c⟩,
   ⟨"USERFUNC6", 0x5d⟩, ⟨"USERFUNC7", 0x5e⟩, ⟨"USERFUNC8", 0x5f⟩]

/-- The FIELD_TYPE dictionary, keyed by the field identifier byte. -/
def FIELD_TYPE : List (Nat × FType) :=
  [(0x02, .len 0), (0x03, .len 0), (0x04, .scalar .uint8),
   (0x08, .scalar .uint32), (0x09, .scalar .uint16), (0x0a, .scalar .uint16),
   (0x0b, .scalar .int16), (0x0c, .scalar .uint16), (0x0d, .scalar .uint16),
   (0x0e, .scalar .uint8), (0x0f, .scalar .uint8), (0x10, .scalar .uint8),
   (0x11, .scalar .uint8), (0x12, .scalar .uint8), (0x13, .scalar .uint16),
   (0x14, .len 7), (0x15, .scalar .int32), (0x16, .scalar .int32),
   (0x17, .scalar .int32), (0x18, .scalar .int32), (0x19, .scalar .int32),
   (0x1a, .scalar .uint8), (0x1b, .scalar .uint16), (0x1c, .scalar .uint8),
   (0x1d, .arr .uint8 3), (0x20, .scalar .uint8), (0x21, .scalar .uint8),
   (0x22, .scalar .uint16), (0x23, .scalar .uint16), (0x24, .scalar .uint32),
   (0x25, .scalar .uint32), (0x26, .scalar .float32),
   (0x27, .scalar .float32), (0x30, .arr .uint32 3), (0x31, .scalar .uint8),
   (0x32, .scalar .uint8), (0x33, .scalar .uint32), (0x34, .scalar .uint16),
   (0x35, .scalar .uint16), (0x36, .scalar .int16), (0x37, .scalar .int16),
   (0x38, .scalar .uint16), (0x39, .scalar .uint16), (0x3a, .scalar .uint8),
   (0x3b, .scalar .int32), (0x3c, .scalar .int32), (0x3d, .scalar .uint32),
   (0x3e, .scalar .int32), (0x3f, .scalar .int32), (0x40, .scalar .uint32),
   (0x41, .scalar .int32), (0x42, .scalar .int32), (0x43, .scalar .uint32),
   (0x44, .scalar .int32), (0x45, .scalar .int32), (0x46, .scalar .uint32),
   (0x47, .scalar .uint32), (0x48, .scalar .uint16), (0x49, .scalar .uint16),
   (0x4a, .scalar .uint16), (0x4b, .scalar .uint8), (0x52, .len 4),
   (0x58, .len 0), (0x59, .len 0), (0x5a, .len 0), (0x5b, .len 0),
   (0x5c, .scalar .uint16), (0x5d, .scalar .uint16), (0x5e, .scalar .uint32),
   (0x5f, .scalar .uint32)]

/-- The decimal factor 1e-2 idealised as the exact rational 1/100, given in
normal form so that it evaluates by computation. -/
def qHundredth : ℚ := ⟨1, 100, by norm_num, Nat.coprime_one_left 100⟩

/-- The decimal factor 1e-3 idealised as the exact rational 1/1000. -/
def qThousandth : ℚ := ⟨1, 1000, by norm_num, Nat.coprime_one_left 1000⟩

/-- The decimal factor 1e-7 idealised as the exact rational 1/10^7. -/
def qTenMillionth : ℚ := ⟨1, 10000000, by norm_num, Nat.coprime_one_left 10000000⟩

/-- The CONVERSION_FACTOR dictionary, keyed by the field identifier byte;
the decimal factors 1e-2, 1e-3, 1e-7 idealised as exact rationals. -/
def CONVERSION_FACTOR : List (Nat × ℚ) :=
  [(0x09, qHundredth), (0x0b, qHundredth), (0x0c, qHundredth),
   (0x15, qTenMillionth), (0x16, qTenMillionth), (0x17, qThousandth),
   (0x19, qTenMillionth), (0x1b, qHundredth), (0x36, qHundredth),
   (0x37, qHundredth), (0x38, qHundredth), (0x39, qHundredth),
   (0x3b, qTenMillionth), (0x3c, qTenMillionth), (0x3d, qHundredth),
   (0x3e, qTenMillionth), (0x3f, qTenMillionth), (0x40, qHundredth),
   (0x41, qTenMillionth), (0x42, qTenMillionth), (0x43, qHundredth),
   (0x44, qTenMillionth), (0x45, qTenMillionth), (0x46, qHundredth),
   (0x4a, qHundredth)]

/-- TrackerMessageFields(b): resolve a field identifier byte to the enum
member, None when the byte is not a recognised identifier. -/
def lookupField (b : Nat) : Option Field :=
  trackerMessageFields.find? (fun f => f.id == b)

/-- The 8-bit Fletcher checksum exactly as the source computes it: two
uint8 accumulators starting at zero, cs_a += byte, cs_b += cs_a, with
wrap-around modulo 256. -/
def checksum (data : List Nat) : Nat × Nat :=
  data.foldl
    (fun cs b => ((cs.1 + b % 256) % 256, (cs.2 + (cs.1 + b % 256) % 256) % 256))
    (0, 0)

/-- The checksum algorithm as the specification words it: both 8-bit
accumulators initialized to zero and, for each byte b in order,
a = (a + b) mod 256 followed by b_acc = (b_acc + a) mod 256. -/
def checksumSpecAux (a bacc : Nat) : List Nat → Nat × Nat
  | [] => (a, bacc)
  | b :: rest =>
    let a2 := (a + b) % 256
    checksumSpecAux a2 ((bacc + a2) % 256) rest

def checksumSpec (data : List Nat) : Nat × Nat :=
  checksumSpecAux 0 0 data

/-- A decoded field value: Python None, a numpy integer scalar, a Python
float (idealised as a rational), a numpy float32 (by bit pattern), a raw
byte slice, a numpy integer array, or a datetime.datetime. -/
inductive Value
  | none
  | int (i : Int)
  | rat (q : ℚ)
  | floatBits (n : Nat)
  | bytes (bs : List Nat)
  | intArray (xs : List Int)
  | datetime (year month day hour minute second : Nat)
deriving DecidableEq

/-- A translated message: the Python dict, as an insertion-ordered
association list. -/
abbrev Message := List (String × Value)

/-- Python dict assignment: overwrite in place if the key exists, else
append at the end. -/
def dictInsert (m : Message) (k : String) (v : Value) : Message :=
  match m with
  | [] => [(k, v)]
  | (k', v') :: rest => if k' = k then (k, v) :: rest else (k', v') :: dictInsert rest k v

inductive DecodeError
  | framing
  | unknownField
  | truncated
  | checksumMismatch
  | badValue
deriving DecidableEq

inductive EncodeError
  | badValue
  | lengthMismatch
deriving DecidableEq

/-- Little-endian bytes of a natural number, w bytes. -/
def natToBytesLE : Nat → Nat → List Nat
  | 0, _ => []
  | w + 1, n => n % 256 :: natToBytesLE w (n / 256)

/-- Little-endian read of a byte list as an unsigned number. -/
def bytesToNatLE : List Nat → Nat
  | [] => 0
  | b :: rest => b + 256 * bytesToNatLE rest

/-- Reinterpret an unsigned w-byte value as two's-complement signed. -/
def toSigned (w : Nat) (n : Nat) : Int :=
  if n < 2 ^ (8 * w - 1) then (n : Int) else (n : Int) - 2 ^ (8 * w)

/-- numpy astype to a w-byte integer followed by tobytes: two's-complement
wrap modulo 2^(8w), then little-endian bytes. -/
def intToBytesLE (w : Nat) (i : Int) : List Nat :=
  natToBytesLE w ((i % ((2 ^ (8 * w) : Nat) : Int)).toNat)

/-- Truncation toward zero of a rational, as a C float-to-int cast does. -/
def truncQ (q : ℚ) : Int :=
  q.num.tdiv (q.den : Int)

/-- One element of an np.frombuffer result. -/
def decodeIntElem (d : Dtype) (bs : List Nat) : Int :=
  let n := bytesToNatLE bs
  if d.isSigned then toSigned d.itemsize n else (n : Int)

/-- np.frombuffer on a slice whose length is k * itemsize: k consecutive
little-endian elements. For the float32 dtype this returns raw bit
patterns; the registry declares no float32 arrays, so that case is inert. -/
def readElemsN (d : Dtype) : Nat → List Nat → List Int
  | 0, _ => []
  | k + 1, s => decodeIntElem d (s.take d.itemsize) :: readElemsN d k (s.drop d.itemsize)

def isLeapYear (y : Nat) : Bool :=
  decide (y % 4 = 0 ∧ (y % 100 ≠ 0 ∨ y % 400 = 0))

def daysInMonth (y mo : Nat) : Nat :=
  if mo = 2 then (if isLeapYear y then 29 else 28)
  else if mo = 4 ∨ mo = 6 ∨ mo = 9 ∨ mo = 11 then 30
  else 31

/-- Validity domain of the Python datetime.datetime constructor. -/
def validDatetime (y mo dy hr mi s : Nat) : Bool :=
  decide (1 ≤ y ∧ y ≤ 9999 ∧ 1 ≤ mo ∧ mo ≤ 12 ∧ 1 ≤ dy ∧ dy ≤ daysInMonth y mo ∧
    hr ≤ 23 ∧ mi ≤ 59 ∧ s ≤ 59)

/-- Apply the registered conversion factor, when one exists, to a freshly
decoded value: float(value) * factor. Python float() fails on non-numeric
values; the registry only registers factors for integer scalars. -/
def applyFactor (fid : Nat) (v : Value) : Except DecodeError Value :=
  match List.lookup fid CONVERSION_FACTOR with
  | Option.none => .ok v
  | Option.some c =>
    match v with
    | .int i => .ok (.rat ((i : ℚ) * c))
    | _ => .error .badValue

/-- Decode one field payload from the bytes following the field identifier,
returning the stored value and the declared payload length the index is
advanced by (lines 258-277 of the source). A blob slice may silently come
up short, exactly as the Python slice does; every other shape fails with
truncated when fewer bytes remain than it needs. -/
def readPayload (f : Field) (rest : List Nat) : Except DecodeError (Value × Nat) :=
  match List.lookup f.id FIELD_TYPE with
  | Option.none => .error .unknownField
  | Option.some (.len n) =>
    if f.id = 0x14 then
      let s := rest.take n
      if s.length < n then .error .truncated
      else
        let y := s.getD 0 0 + 256 * s.getD 1 0
        let mo := s.getD 2 0
        let dy := s.getD 3 0
        let hr := s.getD 4 0
        let mi := s.getD 5 0
        let sec := s.getD 6 0
        if validDatetime y mo dy hr mi sec then
          match applyFactor f.id (.datetime y mo dy hr mi sec) with
          | .error e => .error e
          | .ok v => .ok (v, n)
        else .error .badValue
    else if 0 < n then
      match applyFactor f.id (.bytes (rest.take n)) with
      | .error e => .error e
      | .ok v => .ok (v, n)
    else
      match applyFactor f.id .none with
      | .error e => .error e
      | .ok v => .ok (v, n)
  | Option.some (.scalar d) =>
    let s := rest.take d.itemsize
    if s.length < d.itemsize then .error .truncated
    else
      let raw : Value :=
        match d with
        | .float32 => .floatBits (bytesToNatLE s)
        | _ => .int (decodeIntElem d s)
      match applyFactor f.id raw with
      | .error e => .error e
      | .ok v => .ok (v, d.itemsize)
  | Option.some (.arr d cnt) =>
    let flen := d.itemsize * cnt
    let s := rest.take flen
    if s.length % d.itemsize ≠ 0 then .error .truncated
    else
      match applyFactor f.id (.intArray (readElemsN d (s.length / d.itemsize) s)) with
      | .error e => .error e
      | .ok v => .ok (v, flen)

/-- The field-reading loop of decode_message (lines 255-277): starting just
after the start marker, read a field identifier, decode its payload, store
it, and advance by the declared length, until the end marker byte is read.
Returns the message and the number of bytes consumed including the end
marker. The fuel argument only bounds recursion; any fuel at least the
length of the remaining buffer gives the loop's true result. -/
def decodeFields : Nat → List Nat → Message → Except DecodeError (Message × Nat)
  | 0, _, _ => .error .truncated
  | _ + 1, [], _ => .error .truncated
  | fuel + 1, b :: rest, data =>
    if b = 0x03 then .ok (data, 1)
    else
      match lookupField b with
      | Option.none => .error .unknownField
      | Option.some f =>
        match readPayload f rest with
        | .error e => .error e
        | .ok (v, flen) =>
          match decodeFields fuel (rest.drop flen) (dictInsert data f.name v) with
          | .error e => .error e
          | .ok (m, n) => .ok (m, 1 + flen + n)

/-- The body of decode_message from the STX assertion on (lines 253-282),
with the frame taken to begin at the given start offset: confirm the start
marker, run the field loop, then verify the two checksum bytes, the
checksum being computed over message[0:ind] - from the start of the
buffer (not the start offset) through the end marker. -/
def checkFrame (message : List Nat) (start : Nat) : Except DecodeError Message :=
  match message[start]? with
  | Option.none => .error .truncated
  | Option.some bs =>
    if bs = 0x02 then
      match decodeFields message.length (message.drop (start + 1)) [] with
      | .error e => .error e
      | .ok (data, n) =>
        match message[start + 1 + n]? with
        | Option.none => .error .truncated
        | Option.some ca =>
          if ca = (checksum (message.take (start + 1 + n))).1 then
            match message[start + 1 + n + 1]? with
            | Option.none => .error .truncated
            | Option.some cb =>
              if cb = (checksum (message.take (start + 1 + n))).2 then .ok data
              else .error .checksumMismatch
          else .error .checksumMismatch
    else .error .framing

/-- decode_message (lines 238-282): find the start marker at offset 0, or
assume a 5-byte gateway header and take the frame to begin at offset 5;
then check the frame from there. -/
def decode_message (message : List Nat) : Except DecodeError Message :=
  match message[0]? with
  | Option.none => .error .truncated
  | Option.some b0 => checkFrame message (if b0 = 0x02 then 0 else 5)

/-- Scalar payload serialisation (lines 305-310): wrap the value in a
one-element array, divide by the conversion factor when one is registered,
cast to the declared dtype and emit its bytes. An integer value with a
registered factor reproduces the numpy in-place true-divide error on an
integer array. Conversions between float32 and the other numeric kinds are
outside the bit-pattern float model and are mapped to badValue. -/
def encodeScalar (d : Dtype) (factor : Option ℚ) (v : Value) : Except EncodeError (List Nat) :=
  match factor, v with
  | Option.none, .int i =>
    if d.isIntLike then .ok (intToBytesLE d.itemsize i) else .error .badValue
  | Option.none, .rat q =>
    if d.isIntLike then .ok (intToBytesLE d.itemsize (truncQ q)) else .error .badValue
  | Option.none, .floatBits n =>
    if d = .float32 then .ok (natToBytesLE 4 (n % 2 ^ 32)) else .error .badValue
  | Option.some c, .rat q =>
    if d.isIntLike then .ok (intToBytesLE d.itemsize (truncQ (q / c))) else .error .badValue
  | _, _ => .error .badValue

/-- Payload serialisation for one present field (lines 299-319): the
composed date-time is packed as 2-byte year then five single bytes; scalars
and arrays go through the dtype cast; plain-length fields emit that many
zero bytes regardless of the value supplied. -/
def encodePayload (f : Field) (v : Value) : Except EncodeError (List Nat) :=
  if f.id = 0x14 then
    match v with
    | .datetime y mo dy hr mi s =>
      if y < 65536 ∧ mo < 256 ∧ dy < 256 ∧ hr < 256 ∧ mi < 256 ∧ s < 256 then
        .ok [y % 256, y / 256, mo, dy, hr, mi, s]
      else .error .badValue
    | _ => .error .badValue
  else
    match List.lookup f.id FIELD_TYPE with
    | Option.none => .error .badValue
    | Option.some (.scalar d) => encodeScalar d (List.lookup f.id CONVERSION_FACTOR) v
    | Option.some (.arr d cnt) =>
      match v with
      | .intArray xs =>
        if xs.length = cnt then
          match List.lookup f.id CONVERSION_FACTOR with
          | Option.some _ => .error .badValue
          | Option.none =>
            if d.isIntLike then .ok (xs.flatMap (fun x => intToBytesLE d.itemsize x))
            else .error .badValue
        else .error .lengthMismatch
      | _ => .error .badValue
    | Option.some (.len n) => .ok (List.replicate n 0)

/-- The encoding loop (lines 296-319): iterate the enumeration in its
declaration order and, for every field whose name is a key of the message,
emit the identifier byte followed by the payload. -/
def encodeFields (data : Message) : List Field → Except EncodeError (List Nat)
  | [] => .ok []
  | f :: fs =>
    match data.lookup f.name with
    | Option.none => encodeFields data fs
    | Option.some v =>
      match encodePayload f v with
      | .error e => .error e
      | .ok bs =>
        match encodeFields data fs with
        | .error e => .error e
        | .ok rest => .ok (f.id :: (bs ++ rest))

/-- encode_message (lines 284-324): start marker, canonical-order fields,
end marker, then the two checksum bytes over everything emitted so far. -/
def encode_message (data : Message) : Except EncodeError (List Nat) :=
  match encodeFields data trackerMessageFields with
  | .error e => .error e
  | .ok body =>
    let core := 0x02 :: (body ++ [0x03])
    let cs := checksum core
    .ok (core ++ [cs.1, cs.2])

inductive HexError
  | invalidHexDigit
deriving DecidableEq

/-- The codepoints CPython's Py_UNICODE_ISSPACE recognises (the whitespace
table of the unicodetype database, as reported by str.isspace). -/
def pySpaceCodepoints : List Nat :=
  [9, 10, 11, 12, 13, 28, 29, 30, 31, 32, 0x85, 0xa0, 0x1680,
   0x2000, 0x2001, 0x2002, 0x2003, 0x2004, 0x2005, 0x2006, 0x2007,
   0x2008, 0x2009, 0x200a, 0x2028, 0x2029, 0x202f, 0x205f, 0x3000]

/-- Zero points of the Unicode decimal-digit (Nd) blocks: each entry opens
a run of ten consecutive codepoints carrying decimal values 0 through 9 in
CPython's unicodetype database (the domain of Py_UNICODE_TODECIMAL). -/
def pyDecimalZeros : List Nat :=
  [0x30, 0x660, 0x6f0, 0x7c0, 0x966, 0x9e6, 0xa66, 0xae6, 0xb66, 0xbe6,
   0xc66, 0xce6, 0xd66, 0xde6, 0xe50, 0xed0, 0xf20, 0x1040, 0x1090,
   0x17e0, 0x1810, 0x1946, 0x19d0, 0x1a80, 0x1a90, 0x1b50, 0x1bb0,
   0x1c40, 0x1c50, 0xa620, 0xa8d0, 0xa900, 0xa9d0, 0xa9f0, 0xaa50,
   0xabf0, 0xff10, 0x104a0, 0x10d30, 0x11066, 0x110f0, 0x11136,
   0x111d0, 0x112f0, 0x11450, 0x114d0, 0x11650, 0x116c0, 0x11730,
   0x118e0, 0x11950, 0x11c50, 0x11d50, 0x11da0, 0x16a60, 0x16ac0,
   0x16b50, 0x1d7ce, 0x1d7d8, 0x1d7e2, 0x1d7ec, 0x1d7f6, 0x1e140,
   0x1e2f0, 0x1e950, 0x1fbf0]

/-- Py_UNICODE_TODECIMAL: the decimal value of a Unicode decimal digit. -/
def pyDecimalVal (c : Char) : Option Nat :=
  (pyDecimalZeros.find? (fun z => decide (z ≤ c.toNat ∧ c.toNat < z + 10))).map
    (fun z => c.toNat - z)

/-- CPython _PyUnicode_TransformDecimalAndSpaceToASCII, applied to each
character before integer parsing: characters below 127 pass through,
Unicode whitespace becomes a space, a Unicode decimal digit becomes the
matching ASCII digit, and any other character becomes a question mark. -/
def pyTransformChar (c : Char) : Char :=
  if c.toNat < 127 then c
  else if c.toNat ∈ pySpaceCodepoints then ' '
  else match pyDecimalVal c with
  | Option.some d => Char.ofNat (48 + d)
  | Option.none => '?'

/-- Py_ISSPACE: the whitespace set of the ASCII parsing loop. -/
def asciiSpace (c : Char) : Bool := decide (c.toNat ∈ [9, 10, 11, 12, 13, 32])

/-- _PyLong_DigitValue restricted to values below 16: ASCII hexadecimal
digit values. -/
def hexDigitVal (c : Char) : Option Nat :=
  if 48 ≤ c.toNat ∧ c.toNat ≤ 57 then Option.some (c.toNat - 48)
  else if 97 ≤ c.toNat ∧ c.toNat ≤ 102 then Option.some (c.toNat - 97 + 10)
  else if 65 ≤ c.toNat ∧ c.toNat ≤ 70 then Option.some (c.toNat - 65 + 10)
  else Option.none

/-- The digit-run scanner of CPython PyLong_FromString: hexadecimal digits
with single underscores allowed between digits; the pending flag records
that the previous character was an underscore, which must be followed by a
digit. Returns the accumulated value and the unconsumed tail, failing on a
dangling or doubled underscore. -/
def parseHexAux (acc : Nat) (pending : Bool) : List Char → Option (Nat × List Char)
  | [] => if pending then Option.none else Option.some (acc, [])
  | c :: rest =>
    match hexDigitVal c with
    | Option.some d => parseHexAux (16 * acc + d) false rest
    | Option.none =>
      if pending then Option.none
      else if c = '_' then parseHexAux acc true rest
      else Option.some (acc, c :: rest)

/-- The 0x / 0X prefix handling of PyLong_FromString for base 16: strip
the two prefix characters and at most one underscore directly after
them. -/
def stripHexPrefix (cs : List Char) : List Char :=
  match cs with
  | c0 :: c1 :: rest =>
    if c0 = '0' ∧ (c1 = 'x' ∨ c1 = 'X') then
      match rest with
      | c2 :: rest2 => if c2 = '_' then rest2 else rest
      | [] => []
    else cs
  | _ => cs

/-- The numeral after the optional sign: optional 0x prefix, a nonempty
underscore-separated digit run, then nothing but trailing ASCII
whitespace. -/
def parseHexDigits (cs : List Char) : Option Nat :=
  match stripHexPrefix cs with
  | [] => Option.none
  | c :: rest =>
    match hexDigitVal c with
    | Option.none => Option.none
    | Option.some d =>
      match parseHexAux d false rest with
      | Option.none => Option.none
      | Option.some (n, rest2) =>
        if rest2.all (fun c2 => asciiSpace c2) then Option.some n else Option.none

/-- The Python int(s, 16) builtin (CPython PyLong_FromUnicodeObject):
transform Unicode whitespace and decimal digits to ASCII, skip leading
whitespace, read one optional sign, and parse the hexadecimal numeral. -/
def pyIntHex (cs0 : List Char) : Option Int :=
  match (cs0.map pyTransformChar).dropWhile asciiSpace with
  | [] => Option.none
  | c :: r =>
    if c = '+' then (parseHexDigits r).map (fun n => (n : Int))
    else if c = '-' then (parseHexDigits r).map (fun n => -(n : Int))
    else (parseHexDigits (c :: r)).map (fun n => (n : Int))

/-- asc2bin (lines 326-333): walk the string two characters at a stride,
int(chunk, 16) each chunk (the final chunk of an odd-length string is a
single character) and emit np.uint8 of the result. -/
def asc2bin : List Char → Except HexError (List Nat)
  | [] => .ok []
  | [c] =>
    match pyIntHex [c] with
    | Option.some i => .ok [(i % (256 : Int)).toNat]
    | Option.none => .error .invalidHexDigit
  | c1 :: c2 :: rest =>
    match pyIntHex [c1, c2] with
    | Option.some i =>
      match asc2bin rest with
      | .error e => .error e
      | .ok bs => .ok ((i % (256 : Int)).toNat :: bs)
    | Option.none => .error .invalidHexDigit

def hexChar (n : Nat) : Char :=
  if n < 10 then Char.ofNat ('0'.toNat + n) else Char.ofNat ('a'.toNat + (n - 10))

/-- bin2asc (lines 335-342): each byte as exactly two lowercase hex
digits. -/
def bin2asc (bs : List Nat) : List Char :=
  bs.flatMap (fun b => [hexChar (b / 16 % 16), hexChar (b % 16)])

instance {α β : Type} [DecidableEq α] [DecidableEq β] : DecidableEq (Except α β) :=
  fun x y =>
    match x, y with
    | .ok a, .ok b => if h : a = b then .isTrue (by rw [h]) else .isFalse (by simp [h])
    | .error a, .error b => if h : a = b then .isTrue (by rw [h]) else .isFalse (by simp [h])
    | .ok _, .error _ => .isFalse (by simp)
    | .error _, .ok _ => .isFalse (by simp)

example : checksum [2, 3] = (5, 7) := by decide

example : checksumSpec [2, 3] = (5, 7) := by decide

example : decode_message [0x02, 0x03, 0x05, 0x05] = .error .checksumMismatch := by decide

example : decode_message [0x02, 0x03, 0x05, 0x07] = .ok [] := by decide

example : decode_message [2, 2, 3, 7, 13] = .ok [("STX", Value.none)] := by decide

example : encode_message [("RBHEAD", Value.bytes [1, 0, 0, 0])] =
    .ok [2, 82, 0, 0, 0, 0, 3, 87, 253] := by decide

example : decode_message [2, 82, 0, 0, 0, 0, 3, 87, 253] =
    .ok [("RBHEAD", Value.bytes [0, 0, 0, 0])] := by decide

example : encode_message [("ETX", Value.none)] = .ok [2, 3, 3, 8, 15] := by decide

example : decode_message [2, 3, 3, 8, 15] = .error .checksumMismatch := by decide

example : decode_message [1, 0, 0, 0, 0, 2, 3, 5, 7] = .error .checksumMismatch := by
  decide

example : decode_message [0, 0, 0, 0, 0, 2, 3, 5, 7] = .ok [] := by decide

example : decode_message [2, 20, 230, 7, 1, 2, 3, 4, 5, 3, 21, 94] =
    .ok [("DATETIME", Value.datetime 2022 1 2 3 4 5)] := by decide

example : asc2bin ['a', 'b', 'c'] = .ok [171, 12] := by decide

example : asc2bin ['+', '1'] = .ok [1] := by decide

example : asc2bin ['a', Char.ofNat 0x661] = .ok [161] := by decide

example : asc2bin ['1', Char.ofNat 0xa0] = .ok [1] := by decide

example : pyIntHex ['0', 'x', '_', 'f'] = Option.some 15 := by decide

example : pyIntHex ['a', '_', 'b'] = Option.some 171 := by decide

example : pyIntHex ['1', '_'] = Option.none := by decide

example : asc2bin (bin2asc [0, 171, 255]) = .ok [0, 171, 255] := by decide

example : encode_message [("SATS", Value.int 4), ("SWVER", Value.int 1)] =
    encode_message [("SWVER", Value.int 1), ("SATS", Value.int 4)] := by decide

/-! Registry facts, established by computation. -/

lemma reg_lookup_self :
    ∀ f ∈ trackerMessageFields, lookupField f.id = Option.some f := by decide

lemma reg_name_inj :
    ∀ f ∈ trackerMessageFields, ∀ g ∈ trackerMessageFields,
      f.name = g.name → f = g := by decide

lemma reg_etx_id :
    ∀ f ∈ trackerMessageFields, f.name = "ETX" → f.id = 0x03 := by decide

lemma reg_names_nodup : (trackerMessageFields.map Field.name).Nodup := by decide

lemma reg_fieldtype_total :
    ∀ f ∈ trackerMessageFields, (List.lookup f.id FIELD_TYPE).isSome := by decide

lemma reg_factor_nonzero : ∀ p ∈ CONVERSION_FACTOR, p.2 ≠ 0 := by decide

lemma reg_factor_int_scalar :
    ∀ f ∈ trackerMessageFields, (List.lookup f.id CONVERSION_FACTOR).isSome →
      (match List.lookup f.id FIELD_TYPE with
       | Option.some (.scalar d) => d.isIntLike
       | _ => false) = true := by decide

lemma reg_datetime_type : List.lookup 0x14 FIELD_TYPE = Option.some (.len 7) := by decide

lemma lookupField_mem {b : Nat} {f : Field} (h : lookupField b = Option.some f) :
    f ∈ trackerMessageFields ∧ f.id = b := by
  unfold lookupField at h
  refine ⟨List.mem_of_find?_eq_some h, ?_⟩
  have := List.find?_some h
  simpa using this

lemma reg_datetime_nofactor : List.lookup 0x14 CONVERSION_FACTOR = Option.none := by
  decide

/-! C2: the checksum algorithm matches its specification. -/

lemma checksum_foldl_spec (l : List Nat) (a b : Nat) (h : ∀ x ∈ l, x < 256) :
    l.foldl
      (fun cs b' => ((cs.1 + b' % 256) % 256, (cs.2 + (cs.1 + b' % 256) % 256) % 256))
      (a, b) = checksumSpecAux a b l := by
  induction l generalizing a b with
  | nil => rfl
  | cons x xs ih =>
    have hx : x % 256 = x := Nat.mod_eq_of_lt (h x (by simp))
    simp only [List.foldl, checksumSpecAux, hx]
    exact ih _ _ (fun y hy => h y (by simp [hy]))

/-- C2: for every byte sequence, checksum returns the pair (a, b_acc)
computed by starting both 8-bit accumulators at zero and, for each byte b
in order, setting a = (a + b) mod 256 and then b_acc = (b_acc + a) mod 256. -/
theorem c2_checksum_follows_spec (data : List Nat) (h : ∀ b ∈ data, b < 256) :
    checksum data = checksumSpec data := by
  unfold checksum checksumSpec
  exact checksum_foldl_spec data 0 0 h

theorem c2_checksum_follows_spec_witness :
    checksum [2, 3] = checksumSpec [2, 3] ∧ checksum [2, 3] = (5, 7) :=
  ⟨c2_checksum_follows_spec [2, 3] (by decide), by decide⟩

/-! C3: the concrete empty-frame scenario. The spec miscalculates the
checksum: cs_b accumulates 2 after the first byte and 2 + 5 = 7 after the
second, so checksum [0x02, 0x03] is (5, 7), not (5, 5). -/

/-- C3 counterexample: the buffer 0x02 0x03 0x05 0x05 does not decode to an
empty Message; it fails with a checksum mismatch, because the checksum of
[0x02, 0x03] is (5, 7) and not (5, 5). -/
theorem c3_counterexample :
    decode_message [0x02, 0x03, 0x05, 0x05] = .error .checksumMismatch ∧
      checksum [0x02, 0x03] ≠ (5, 5) := by decide

/-- C3 (amended): the 4-byte buffer 0x02 0x03 0x05 0x07 (start marker, end
marker, two checksum bytes) decodes successfully to an empty Message,
because the checksum of the bytes [0x02, 0x03] is (a = 5, b = 7). -/
theorem c3_empty_frame :
    decode_message [0x02, 0x03, 0x05, 0x07] = .ok [] ∧
      checksum [0x02, 0x03] = (5, 7) := by decide

/-! C4: the composed date-time payload length. -/

lemma daysInMonth_le (y mo : Nat) : daysInMonth y mo ≤ 31 := by
  unfold daysInMonth
  split
  · split <;> omega
  · split <;> omega

lemma validDatetime_bounds {y mo dy hr mi s : Nat}
    (h : validDatetime y mo dy hr mi s = true) :
    y < 65536 ∧ mo < 256 ∧ dy < 256 ∧ hr < 256 ∧ mi < 256 ∧ s < 256 := by
  have h' := of_decide_eq_true h
  have hd := daysInMonth_le y mo
  omega

/-- C4 counterexample: the composed date-time wire payload is seven bytes,
not six. FIELD_TYPE declares the plain length 7 for the date-time
identifier (a 2-byte year plus five 1-byte components is 7 bytes), and
decode consumes exactly seven payload bytes for it. -/
theorem c4_counterexample :
    List.lookup 0x14 FIELD_TYPE = Option.some (FType.len 7) ∧
      readPayload ⟨"DATETIME", 0x14⟩ [230, 7, 1, 2, 3, 4, 5] =
        .ok (Value.datetime 2022 1 2 3 4 5, 7) ∧
      decode_message [2, 20, 230, 7, 1, 2, 3, 4, 5, 3, 21, 94] =
        .ok [("DATETIME", Value.datetime 2022 1 2 3 4 5)] ∧
      (7 : Nat) ≠ 6 := by decide

/-- C4 (amended): the composed date-time field's wire payload occupies
exactly seven bytes, laid out as a 2-byte little-endian year followed by
five 1-byte month/day/hour/minute/second components, and decode consumes
exactly that many payload bytes for it. -/
theorem c4_datetime_payload (y mo dy hr mi s : Nat)
    (h : validDatetime y mo dy hr mi s = true) :
    encodePayload ⟨"DATETIME", 0x14⟩ (.datetime y mo dy hr mi s) =
        .ok [y % 256, y / 256, mo, dy, hr, mi, s] ∧
      ([y % 256, y / 256, mo, dy, hr, mi, s] : List Nat).length = 7 ∧
      ∀ rest, readPayload ⟨"DATETIME", 0x14⟩
          ([y % 256, y / 256, mo, dy, hr, mi, s] ++ rest) =
        .ok (Value.datetime y mo dy hr mi s, 7) := by
  obtain ⟨h1, h2, h3, h4, h5, h6⟩ := validDatetime_bounds h
  refine ⟨?_, by simp, ?_⟩
  · simp [encodePayload, h1, h2, h3, h4, h5, h6]
  · intro rest
    simp only [readPayload, reg_datetime_type, List.cons_append, List.nil_append,
      List.take_succ_cons, List.take_zero, List.length_cons, List.length_nil,
      List.getD_cons_zero, List.getD_cons_succ]
    rw [Nat.mod_add_div y 256]
    simp [h, applyFactor, reg_datetime_nofactor]

theorem c4_datetime_payload_witness :
    encodePayload ⟨"DATETIME", 0x14⟩ (.datetime 2022 1 2 3 4 5) =
        .ok [230, 7, 1, 2, 3, 4, 5] ∧
      readPayload ⟨"DATETIME", 0x14⟩ ([230, 7, 1, 2, 3, 4, 5] ++ [9, 9]) =
        .ok (Value.datetime 2022 1 2 3 4 5, 7) := by
  have h := c4_datetime_payload 2022 1 2 3 4 5 (by decide)
  exact ⟨by simpa using h.1, by simpa using h.2.2 [9, 9]⟩

/-! C8: the hex codec. -/

lemma parseHexAux_step (acc : Nat) (pending : Bool) (c : Char) (rest : List Char) :
    parseHexAux acc pending (c :: rest) =
      match hexDigitVal c with
      | Option.some d => parseHexAux (16 * acc + d) false rest
      | Option.none =>
        if pending then Option.none
        else if c = '_' then parseHexAux acc true rest
        else Option.some (acc, c :: rest) := by
  rw [parseHexAux]

lemma hexDigitVal_bounds {c : Char} {d : Nat} (h : hexDigitVal c = Option.some d) :
    (48 ≤ c.toNat ∧ c.toNat ≤ 57) ∨ (97 ≤ c.toNat ∧ c.toNat ≤ 102) ∨
      (65 ≤ c.toNat ∧ c.toNat ≤ 70) := by
  unfold hexDigitVal at h
  split at h
  · next h1 => exact Or.inl h1
  · split at h
    · next h2 => exact Or.inr (Or.inl h2)
    · split at h
      · next h3 => exact Or.inr (Or.inr h3)
      · exact absurd h (by simp)

lemma hexDigit_ne {c : Char} {d : Nat} (h : hexDigitVal c = Option.some d)
    (a : Char)
    (ha : ¬((48 ≤ a.toNat ∧ a.toNat ≤ 57) ∨ (97 ≤ a.toNat ∧ a.toNat ≤ 102) ∨
      (65 ≤ a.toNat ∧ a.toNat ≤ 70))) : c ≠ a := by
  intro hEq
  subst hEq
  exact ha (hexDigitVal_bounds h)

lemma hexDigit_not_asciiSpace {c : Char} {d : Nat} (h : hexDigitVal c = Option.some d) :
    asciiSpace c = false := by
  have hb := hexDigitVal_bounds h
  unfold asciiSpace
  rw [decide_eq_false_iff_not]
  intro hmem
  simp only [List.mem_cons, List.not_mem_nil, or_false] at hmem
  omega

lemma pyTransformChar_hexdigit {c : Char} {d : Nat} (h : hexDigitVal c = Option.some d) :
    pyTransformChar c = c := by
  have hb := hexDigitVal_bounds h
  unfold pyTransformChar
  rw [if_pos (by omega)]

lemma pyIntHex_pair {a b : Char} {x y : Nat}
    (ha : hexDigitVal a = Option.some x) (hb : hexDigitVal b = Option.some y) :
    pyIntHex [a, b] = Option.some ((16 * x + y : Nat) : Int) := by
  have hta := pyTransformChar_hexdigit ha
  have htb := pyTransformChar_hexdigit hb
  have hsa := hexDigit_not_asciiSpace ha
  have hpa : a ≠ '+' := hexDigit_ne ha '+' (by decide)
  have hma : a ≠ '-' := hexDigit_ne ha '-' (by decide)
  have hprefix : ¬(a = '0' ∧ (b = 'x' ∨ b = 'X')) := by
    rintro ⟨-, hb2 | hb2⟩
    · exact (hexDigit_ne hb 'x' (by decide)) hb2
    · exact (hexDigit_ne hb 'X' (by decide)) hb2
  unfold pyIntHex
  simp only [List.map_cons, List.map_nil, hta, htb]
  rw [List.dropWhile_cons_of_neg (by simp [hsa])]
  dsimp only
  rw [if_neg hpa, if_neg hma]
  unfold parseHexDigits stripHexPrefix
  dsimp only
  rw [if_neg hprefix]
  dsimp only
  rw [ha]
  dsimp only
  rw [parseHexAux_step, hb]
  dsimp only
  simp [parseHexAux]

lemma pyIntHex_single {a : Char} {x : Nat} (ha : hexDigitVal a = Option.some x) :
    pyIntHex [a] = Option.some ((x : Nat) : Int) := by
  have hta := pyTransformChar_hexdigit ha
  have hsa := hexDigit_not_asciiSpace ha
  have hpa : a ≠ '+' := hexDigit_ne ha '+' (by decide)
  have hma : a ≠ '-' := hexDigit_ne ha '-' (by decide)
  unfold pyIntHex
  simp only [List.map_cons, List.map_nil, hta]
  rw [List.dropWhile_cons_of_neg (by simp [hsa])]
  dsimp only
  rw [if_neg hpa, if_neg hma]
  unfold parseHexDigits stripHexPrefix
  dsimp only
  rw [ha]
  dsimp only
  simp [parseHexAux]

lemma hexChar_val : ∀ k, k < 16 → hexDigitVal (hexChar k) = Option.some k := by decide

lemma asc2bin_bin2asc (bs : List Nat) (h : ∀ b ∈ bs, b < 256) :
    asc2bin (bin2asc bs) = .ok bs := by
  induction bs with
  | nil => rfl
  | cons b rest ih =>
    have hb : b < 256 := h b (by simp)
    have hrest := ih (fun y hy => h y (by simp [hy]))
    have hhi : b / 16 % 16 < 16 := Nat.mod_lt _ (by omega)
    have hlo : b % 16 < 16 := Nat.mod_lt _ (by omega)
    simp only [bin2asc, List.flatMap_cons, List.cons_append, List.nil_append] at *
    simp only [asc2bin]
    rw [pyIntHex_pair (hexChar_val _ hhi) (hexChar_val _ hlo), hrest]
    have hv : 16 * (b / 16 % 16) + b % 16 = b := by omega
    rw [hv]
    have hm : ((b : Int) % 256) = (b : Int) := by omega
    simp [hm]

lemma asc2bin_allhex_ok (cs : List Char) (h : ∀ c ∈ cs, (hexDigitVal c).isSome) :
    ∃ bs, asc2bin cs = .ok bs := by
  have key : ∀ n (cs : List Char), cs.length ≤ n →
      (∀ c ∈ cs, (hexDigitVal c).isSome) → ∃ bs, asc2bin cs = .ok bs := by
    intro n
    induction n with
    | zero =>
      intro cs hlen _
      rw [List.length_eq_zero.mp (Nat.le_zero.mp hlen)]
      exact ⟨[], rfl⟩
    | succ n ih =>
      intro cs hlen hhex
      match cs with
      | [] => exact ⟨[], rfl⟩
      | [c] =>
        obtain ⟨d, hd⟩ := Option.isSome_iff_exists.mp (hhex c (by simp))
        refine ⟨[((d : Int) % 256).toNat], ?_⟩
        simp [asc2bin, pyIntHex_single hd]
      | c1 :: c2 :: rest =>
        obtain ⟨d1, hd1⟩ := Option.isSome_iff_exists.mp (hhex c1 (by simp))
        obtain ⟨d2, hd2⟩ := Option.isSome_iff_exists.mp (hhex c2 (by simp))
        obtain ⟨bs, hbs⟩ := ih rest (by simp at hlen; omega)
          (fun c hc => hhex c (by simp [hc]))
        refine ⟨(((16 * d1 + d2 : Nat) : Int) % 256).toNat :: bs, ?_⟩
        simp [asc2bin, pyIntHex_pair hd1 hd2, hbs]
  exact key cs.length cs le_rfl h

lemma asc2bin_badchar (c d : Char) (hc : hexDigitVal c = Option.none)
    (hs : c.toNat ∉ pySpaceCodepoints) (hdec : pyDecimalVal c = Option.none)
    (hd : (hexDigitVal d).isSome) :
    asc2bin [d, c] = .error .invalidHexDigit := by
  obtain ⟨x, hx⟩ := Option.isSome_iff_exists.mp hd
  have htd := pyTransformChar_hexdigit hx
  have hsd := hexDigit_not_asciiSpace hx
  have hpd : d ≠ '+' := hexDigit_ne hx '+' (by decide)
  have hmd : d ≠ '-' := hexDigit_ne hx '-' (by decide)
  have hor : pyTransformChar c = c ∨ pyTransformChar c = '?' := by
    unfold pyTransformChar
    by_cases h127 : c.toNat < 127
    · exact Or.inl (if_pos h127)
    · right
      rw [if_neg h127, if_neg hs, hdec]
  have hcN : hexDigitVal (pyTransformChar c) = Option.none := by
    rcases hor with h2 | h2 <;> rw [h2]
    · exact hc
    · decide
  have hcS : asciiSpace (pyTransformChar c) = false := by
    rcases hor with h2 | h2 <;> rw [h2]
    · unfold asciiSpace
      rw [decide_eq_false_iff_not]
      intro hmem
      apply hs
      simp only [List.mem_cons, List.not_mem_nil, or_false] at hmem
      unfold pySpaceCodepoints
      simp only [List.mem_cons, List.not_mem_nil, or_false]
      omega
    · decide
  have hbody : parseHexDigits [d, pyTransformChar c] = Option.none := by
    unfold parseHexDigits stripHexPrefix
    dsimp only
    by_cases hpre : d = '0' ∧ (pyTransformChar c = 'x' ∨ pyTransformChar c = 'X')
    · rw [if_pos hpre]
    · rw [if_neg hpre]
      dsimp only
      rw [hx]
      dsimp only
      rw [parseHexAux_step, hcN]
      dsimp only
      by_cases hus : pyTransformChar c = '_'
      · rw [if_pos hus]
        simp [parseHexAux]
      · rw [if_neg hus]
        simp [hcS]
  have hpy : pyIntHex [d, c] = Option.none := by
    unfold pyIntHex
    simp only [List.map_cons, List.map_nil, htd]
    rw [List.dropWhile_cons_of_neg (by simp [hsd])]
    dsimp only
    rw [if_neg hpd, if_neg hmd, hbody]
    rfl
  simp [asc2bin, hpy]

/-- C8 counterexample: from_hex does not fail on an odd-length string (the
final lone character is parsed as a single hex digit), nor on every string
containing a non-hex-digit character: a sign before a digit is accepted by
the integer parser, and so is a Unicode decimal digit such as the Arabic
one (int transforms it to its ASCII counterpart before parsing). -/
theorem c8_counterexample :
    asc2bin ['a', 'b', 'c'] = .ok [171, 12] ∧ asc2bin ['+', '1'] = .ok [1] ∧
      asc2bin ['a', Char.ofNat 0x661] = .ok [161] := by
  decide

/-- C8 (amended): from_hex inverts to_hex, consuming the string two
characters at a time; a string of hex digits is always accepted, odd length
included (its final lone character is parsed as a single hex digit); a
chunk whose non-leading character cannot occur in a hexadecimal numeral -
not an ASCII hexadecimal digit, not Unicode whitespace, not a Unicode
decimal digit - fails with InvalidHexDigit. -/
theorem c8_hex_codec :
    (∀ bs : List Nat, (∀ b ∈ bs, b < 256) → asc2bin (bin2asc bs) = .ok bs) ∧
      (∀ cs : List Char, (∀ c ∈ cs, (hexDigitVal c).isSome) →
        ∃ bs, asc2bin cs = .ok bs) ∧
      (∀ c d : Char, hexDigitVal c = Option.none → c.toNat ∉ pySpaceCodepoints →
        pyDecimalVal c = Option.none →
        (hexDigitVal d).isSome → asc2bin [d, c] = .error .invalidHexDigit) :=
  ⟨asc2bin_bin2asc, asc2bin_allhex_ok, fun c d hc hs hdec hd =>
    asc2bin_badchar c d hc hs hdec hd⟩

theorem c8_hex_codec_witness :
    asc2bin (bin2asc [0, 171, 255]) = .ok [0, 171, 255] ∧
      (∃ bs, asc2bin ['a', 'b', 'c'] = .ok bs) ∧
      asc2bin ['1', 'g'] = .error .invalidHexDigit :=
  ⟨c8_hex_codec.1 [0, 171, 255] (by decide),
   c8_hex_codec.2.1 ['a', 'b', 'c'] (by decide),
   c8_hex_codec.2.2 'g' '1' (by decide) (by decide) (by decide) (by decide)⟩

/-! General facts about the decoder loop. -/

lemma decodeFields_nil (fuel : Nat) (data : Message) :
    decodeFields fuel [] data = .error .truncated := by
  cases fuel <;> rfl

lemma lookup_cons_pair (k k0 : String) (v0 : Value) (rest : Message) :
    List.lookup k ((k0, v0) :: rest) =
      if k = k0 then Option.some v0 else List.lookup k rest := by
  by_cases h : k = k0
  · subst h
    simp [List.lookup]
  · simp [List.lookup, h, beq_eq_false_iff_ne.mpr h]

lemma lookup_dictInsert (m : Message) (k k' : String) (v : Value) :
    (dictInsert m k v).lookup k' = if k' = k then Option.some v else m.lookup k' := by
  induction m with
  | nil =>
    simp only [dictInsert, lookup_cons_pair]
  | cons p rest ih =>
    obtain ⟨k0, v0⟩ := p
    by_cases h0 : k0 = k
    · subst h0
      simp only [dictInsert, if_pos rfl]
      by_cases h : k' = k0 <;> simp [lookup_cons_pair, h]
    · simp only [dictInsert, if_neg h0, lookup_cons_pair, ih]
      by_cases h : k' = k <;> by_cases h' : k' = k0 <;> simp_all

lemma checkFrame_ok_inv {msg : List Nat} {start : Nat} {m : Message}
    (h : checkFrame msg start = .ok m) :
    ∃ n, msg[start]? = Option.some 2 ∧
      decodeFields msg.length (msg.drop (start + 1)) [] = .ok (m, n) ∧
      msg[start + 1 + n]? = Option.some (checksum (msg.take (start + 1 + n))).1 ∧
      msg[start + 1 + n + 1]? = Option.some (checksum (msg.take (start + 1 + n))).2 := by
  unfold checkFrame at h
  split at h
  · exact absurd h (by simp)
  · next bs h1 =>
    split at h
    · next hbs =>
      subst hbs
      split at h
      · exact absurd h (by simp)
      · next data n h2 =>
        split at h
        · exact absurd h (by simp)
        · next ca h3 =>
          split at h
          · next hca =>
            split at h
            · exact absurd h (by simp)
            · next cb h4 =>
              split at h
              · next hcb =>
                simp only [Except.ok.injEq] at h
                subst h
                exact ⟨n, h1, h2, by rw [h3, hca], by rw [h4, hcb]⟩
              · exact absurd h (by simp)
          · exact absurd h (by simp)
    · exact absurd h (by simp)

lemma decode_message_ok_inv {msg : List Nat} {m : Message}
    (h : decode_message msg = .ok m) :
    ∃ start n, (start = 0 ∨ start = 5) ∧ msg[start]? = Option.some 2 ∧
      decodeFields msg.length (msg.drop (start + 1)) [] = .ok (m, n) ∧
      msg[start + 1 + n]? = Option.some (checksum (msg.take (start + 1 + n))).1 ∧
      msg[start + 1 + n + 1]? = Option.some (checksum (msg.take (start + 1 + n))).2 := by
  unfold decode_message at h
  split at h
  · exact absurd h (by simp)
  · next b0 h0 =>
    obtain ⟨n, hh⟩ := checkFrame_ok_inv h
    exact ⟨if b0 = 2 then 0 else 5, n, by by_cases hb : b0 = 2 <;> simp [hb], hh.1, hh.2.1,
      hh.2.2.1, hh.2.2.2⟩

/-! C7: marker identifiers as data keys. -/

lemma decodeFields_no_etx (fuel : Nat) :
    ∀ (s : List Nat) (data : Message),
      data.lookup ("ETX") = Option.none →
      ∀ m n, decodeFields fuel s data = .ok (m, n) →
        m.lookup ("ETX") = Option.none := by
  induction fuel with
  | zero =>
    intro s data _ m n h
    simp [decodeFields] at h
  | succ fuel ih =>
    intro s data hdata m n h
    match s with
    | [] => simp [decodeFields] at h
    | b :: rest =>
      simp only [decodeFields] at h
      by_cases hb : b = 3
      · rw [if_pos hb] at h
        simp only [Except.ok.injEq, Prod.mk.injEq] at h
        rw [← h.1]
        exact hdata
      · rw [if_neg hb] at h
        cases hlf : lookupField b with
        | none => rw [hlf] at h; simp at h
        | some f =>
          rw [hlf] at h
          dsimp only at h
          cases hrp : readPayload f rest with
          | error e => rw [hrp] at h; simp at h
          | ok vp =>
            rw [hrp] at h
            obtain ⟨v, flen⟩ := vp
            dsimp only at h
            cases hrec : decodeFields fuel (rest.drop flen) (dictInsert data f.name v) with
            | error e => rw [hrec] at h; simp at h
            | ok p =>
              rw [hrec] at h
              simp only [Except.ok.injEq, Prod.mk.injEq] at h
              have hname : f.name ≠ "ETX" := by
                intro heq
                obtain ⟨hmem, hid⟩ := lookupField_mem hlf
                exact hb (hid ▸ reg_etx_id f hmem heq)
              have hins : (dictInsert data f.name v).lookup ("ETX") = Option.none := by
                rw [lookup_dictInsert]
                rw [if_neg (fun hh => hname hh.symm)]
                exact hdata
              have := ih (rest.drop flen) (dictInsert data f.name v) hins p.1 p.2 (by
                rw [hrec])
              rw [← h.1]
              exact this

/-- C7 counterexample: decode accepts a buffer in which the start-marker
identifier occurs in field position and stores it as a data key: the frame
0x02 0x02 0x03 0x07 0x0d decodes to a Message whose only key is the start
marker's name, contradicting the claim that the two structural markers are
never present as data keys. -/
theorem c7_counterexample :
    decode_message [2, 2, 3, 7, 13] = .ok [("STX", Value.none)] ∧
      List.lookup ("STX") ([("STX", Value.none)] : Message) =
        Option.some Value.none := by decide

/-- C7 (amended): for every buffer that decode accepts, the resulting
Message never contains the end-of-message marker name as a data key - the
loop stops at that identifier - but the start-of-message marker identifier,
when it occurs in field position, is stored like any other zero-length
field. -/
theorem c7_no_etx_key (msg : List Nat) (m : Message)
    (h : decode_message msg = .ok m) : m.lookup ("ETX") = Option.none := by
  obtain ⟨start, n, _, _, h2, _, _⟩ := decode_message_ok_inv h
  exact decodeFields_no_etx msg.length _ [] rfl m n h2

theorem c7_no_etx_key_witness :
    List.lookup ("ETX") ([("STX", Value.none)] : Message) = Option.none :=
  c7_no_etx_key [2, 2, 3, 7, 13] [("STX", Value.none)] (by decide)

/-! C5: truncation behaviour and shape conformance of decoded values. -/


/-- The number of payload bytes a declared shape requires. -/
def FType.byteLen : FType → Nat
  | .len n => n
  | .scalar d => d.itemsize
  | .arr d cnt => d.itemsize * cnt

/-- The number of payload bytes the declared shape of a field requires. -/
def declaredLen (f : Field) : Nat :=
  match List.lookup f.id FIELD_TYPE with
  | Option.some ft => ft.byteLen
  | Option.none => 0

/-- A value conforms to a declared shape: blobs carry the full declared
byte length, arrays the declared element count, the composed date-time its
six components, scalars a numeric value, zero-length fields the absence
marker. -/
def fitsShapeAux (fid : Nat) (v : Value) : FType → Prop
  | .len n =>
    if fid = 0x14 then ∃ y mo dy hr mi s, v = .datetime y mo dy hr mi s
    else if 0 < n then ∃ bs, v = .bytes bs ∧ bs.length = n
    else v = .none
  | .scalar _ =>
    (∃ i, v = .int i) ∨ (∃ q, v = .rat q) ∨ (∃ fb, v = .floatBits fb)
  | .arr _ cnt => ∃ xs, v = .intArray xs ∧ xs.length = cnt

/-- A decoded value conforms to its field's declared shape. -/
def fitsShape (f : Field) (v : Value) : Prop :=
  match List.lookup f.id FIELD_TYPE with
  | Option.none => False
  | Option.some ft => fitsShapeAux f.id v ft

lemma itemsize_pos (d : Dtype) : 0 < d.itemsize := by
  cases d <;> simp [Dtype.itemsize]

lemma readElemsN_length (d : Dtype) (k : Nat) : ∀ s, (readElemsN d k s).length = k := by
  induction k with
  | zero => intro s; simp [readElemsN]
  | succ k ih => intro s; simp [readElemsN, ih]

lemma decodeFields_ok_ne_nil {fuel : Nat} {s : List Nat} {data : Message}
    {r : Message × Nat} (h : decodeFields fuel s data = .ok r) : s ≠ [] := by
  intro hs
  subst hs
  rw [decodeFields_nil] at h
  exact absurd h (by simp)

lemma applyFactor_ok {fid : Nat} {raw v : Value} (h : applyFactor fid raw = .ok v) :
    v = raw ∨ ∃ i q, raw = .int i ∧ v = .rat q := by
  unfold applyFactor at h
  split at h
  · simp only [Except.ok.injEq] at h
    exact Or.inl h.symm
  · split at h
    · next i =>
      simp only [Except.ok.injEq] at h
      exact Or.inr ⟨i, _, rfl, h.symm⟩
    · exact absurd h (by simp)


lemma factor_none_len {f : Field} {n : Nat} (hmem : f ∈ trackerMessageFields)
    (hft : List.lookup f.id FIELD_TYPE = Option.some (.len n)) :
    List.lookup f.id CONVERSION_FACTOR = Option.none := by
  by_cases h : (List.lookup f.id CONVERSION_FACTOR).isSome
  · have := reg_factor_int_scalar f hmem h
    rw [hft] at this
    simp at this
  · exact Option.not_isSome_iff_eq_none.mp h

lemma factor_none_arr {f : Field} {d : Dtype} {cnt : Nat}
    (hmem : f ∈ trackerMessageFields)
    (hft : List.lookup f.id FIELD_TYPE = Option.some (.arr d cnt)) :
    List.lookup f.id CONVERSION_FACTOR = Option.none := by
  by_cases h : (List.lookup f.id CONVERSION_FACTOR).isSome
  · have := reg_factor_int_scalar f hmem h
    rw [hft] at this
    simp at this
  · exact Option.not_isSome_iff_eq_none.mp h

lemma readPayload_ok_fits {f : Field} {rest : List Nat} {v : Value} {flen : Nat}
    (hmem : f ∈ trackerMessageFields)
    (h : readPayload f rest = .ok (v, flen)) (hle : flen ≤ rest.length) :
    fitsShape f v ∧ flen = declaredLen f := by
  unfold readPayload at h
  unfold fitsShape declaredLen
  split at h
  · exact absurd h (by simp)
  case _ n hft =>
    rw [hft]
    dsimp only [fitsShapeAux, FType.byteLen]
    dsimp only at h
    by_cases hid : f.id = 0x14
    · rw [if_pos hid] at h
      rw [if_pos hid]
      split at h
      · exact absurd h (by simp)
      · split at h
        · unfold applyFactor at h
          rw [hid, reg_datetime_nofactor] at h
          dsimp only at h
          simp only [Except.ok.injEq, Prod.mk.injEq] at h
          exact ⟨⟨_, _, _, _, _, _, h.1.symm⟩, h.2.symm⟩
        · exact absurd h (by simp)
    · rw [if_neg hid] at h
      rw [if_neg hid]
      by_cases hn : 0 < n
      · rw [if_pos hn] at h
        rw [if_pos hn]
        unfold applyFactor at h
        rw [factor_none_len hmem hft] at h
        dsimp only at h
        simp only [Except.ok.injEq, Prod.mk.injEq] at h
        refine ⟨⟨rest.take n, h.1.symm, ?_⟩, h.2.symm⟩
        rw [List.length_take]
        omega
      · rw [if_neg hn] at h
        rw [if_neg hn]
        unfold applyFactor at h
        rw [factor_none_len hmem hft] at h
        dsimp only at h
        simp only [Except.ok.injEq, Prod.mk.injEq] at h
        exact ⟨h.1.symm, h.2.symm⟩
  case _ d hft =>
    rw [hft]
    dsimp only [fitsShapeAux, FType.byteLen]
    dsimp only at h
    split at h
    · exact absurd h (by simp)
    · split at h
      · exact absurd h (by simp)
      · next v2 hap =>
        simp only [Except.ok.injEq, Prod.mk.injEq] at h
        obtain ⟨hv, hf⟩ := h
        subst hv
        refine ⟨?_, hf.symm⟩
        rcases applyFactor_ok hap with hraw | ⟨i, q, heqq, hrat⟩
        · rw [hraw]
          cases d <;>
            first
            | exact Or.inl ⟨_, rfl⟩
            | exact Or.inr (Or.inr ⟨_, rfl⟩)
        · rw [hrat]
          exact Or.inr (Or.inl ⟨q, rfl⟩)
  case _ d cnt hft =>
    rw [hft]
    dsimp only [fitsShapeAux, FType.byteLen]
    dsimp only at h
    split at h
    · exact absurd h (by simp)
    · next hmod =>
      unfold applyFactor at h
      rw [factor_none_arr hmem hft] at h
      dsimp only at h
      simp only [Except.ok.injEq, Prod.mk.injEq] at h
      refine ⟨⟨_, h.1.symm, ?_⟩, h.2.symm⟩
      rw [readElemsN_length]
      have hw := itemsize_pos d
      have hfl : flen = d.itemsize * cnt := h.2.symm
      subst hfl
      rw [List.length_take]
      have hmin : min (d.itemsize * cnt) rest.length = d.itemsize * cnt := by omega
      rw [hmin]
      exact Nat.mul_div_cancel_left cnt hw


lemma readPayload_short (f : Field) (rest : List Nat)
    (hmem : f ∈ trackerMessageFields) (hlen : rest.length < declaredLen f) :
    readPayload f rest = .error .truncated ∨
      ∃ v, readPayload f rest = .ok (v, declaredLen f) := by
  unfold readPayload
  unfold declaredLen at hlen ⊢
  cases hft : List.lookup f.id FIELD_TYPE with
  | none =>
    exfalso
    have := reg_fieldtype_total f hmem
    rw [hft] at this
    simp at this
  | some ft =>
    rw [hft] at hlen
    cases ft with
    | len n =>
      dsimp only [FType.byteLen] at hlen
      dsimp only [FType.byteLen]
      by_cases hid : f.id = 0x14
      · rw [if_pos hid]
        rw [if_pos (by rw [List.length_take]; omega)]
        exact Or.inl rfl
      · rw [if_neg hid]
        have hn : 0 < n := by omega
        rw [if_pos hn]
        unfold applyFactor
        rw [factor_none_len hmem hft]
        exact Or.inr ⟨_, rfl⟩
    | scalar d =>
      dsimp only [FType.byteLen] at hlen
      dsimp only [FType.byteLen]
      rw [if_pos (by rw [List.length_take]; omega)]
      exact Or.inl rfl
    | arr d cnt =>
      dsimp only [FType.byteLen] at hlen
      dsimp only [FType.byteLen]
      by_cases hmod : (rest.take (d.itemsize * cnt)).length % d.itemsize ≠ 0
      · rw [if_pos hmod]
        exact Or.inl rfl
      · rw [if_neg hmod]
        unfold applyFactor
        rw [factor_none_arr hmem hft]
        exact Or.inr ⟨_, rfl⟩

lemma decodeFields_truncated (fuel b : Nat) (rest : List Nat) (data : Message)
    (f : Field) (hb : ¬ b = 0x03) (hf : lookupField b = Option.some f)
    (hlen : rest.length < declaredLen f) :
    decodeFields (fuel + 1) (b :: rest) data = .error .truncated := by
  simp only [decodeFields]
  rw [if_neg hb, hf]
  dsimp only
  obtain ⟨hmem, _⟩ := lookupField_mem hf
  rcases readPayload_short f rest hmem hlen with hrp | ⟨v, hrp⟩
  · rw [hrp]
  · rw [hrp]
    dsimp only
    rw [show rest.drop (declaredLen f) = [] from
      List.drop_eq_nil_iff.mpr (by omega)]
    rw [decodeFields_nil]

lemma decodeFields_values_fit (fuel : Nat) :
    ∀ (s : List Nat) (data m : Message) (n : Nat),
      (∀ k v, data.lookup k = Option.some v →
        ∃ f, f ∈ trackerMessageFields ∧ f.name = k ∧ fitsShape f v) →
      decodeFields fuel s data = .ok (m, n) →
      ∀ k v, m.lookup k = Option.some v →
        ∃ f, f ∈ trackerMessageFields ∧ f.name = k ∧ fitsShape f v := by
  induction fuel with
  | zero => intro s data m n _ h; simp [decodeFields] at h
  | succ fuel ih =>
    intro s data m n hdata h
    match s with
    | [] => simp [decodeFields] at h
    | b :: rest =>
      simp only [decodeFields] at h
      by_cases hb : b = 3
      · rw [if_pos hb] at h
        simp only [Except.ok.injEq, Prod.mk.injEq] at h
        rw [← h.1]
        exact hdata
      · rw [if_neg hb] at h
        cases hlf : lookupField b with
        | none => rw [hlf] at h; simp at h
        | some f =>
          rw [hlf] at h
          dsimp only at h
          cases hrp : readPayload f rest with
          | error e => rw [hrp] at h; simp at h
          | ok vp =>
            rw [hrp] at h
            obtain ⟨v, flen⟩ := vp
            dsimp only at h
            cases hrec : decodeFields fuel (rest.drop flen) (dictInsert data f.name v) with
            | error e => rw [hrec] at h; simp at h
            | ok p =>
              rw [hrec] at h
              simp only [Except.ok.injEq, Prod.mk.injEq] at h
              have hne : rest.drop flen ≠ [] := decodeFields_ok_ne_nil (by rw [hrec])
              have hlt : flen < rest.length := by
                by_contra hge
                exact hne (List.drop_eq_nil_iff.mpr (by omega))
              obtain ⟨hmem, _⟩ := lookupField_mem hlf
              have hfits := readPayload_ok_fits hmem hrp (le_of_lt hlt)
              have hins : ∀ k v', (dictInsert data f.name v).lookup k = Option.some v' →
                  ∃ g, g ∈ trackerMessageFields ∧ g.name = k ∧ fitsShape g v' := by
                intro k v' hk
                rw [lookup_dictInsert] at hk
                by_cases hkf : k = f.name
                · rw [if_pos hkf] at hk
                  simp only [Option.some.injEq] at hk
                  exact ⟨f, hmem, hkf.symm, hk ▸ hfits.1⟩
                · rw [if_neg hkf] at hk
                  exact hdata k v' hk
              have := ih (rest.drop flen) (dictInsert data f.name v) p.1 p.2 hins
                (by rw [hrec])
              rw [← h.1]
              exact this

/-- C5: for every accepted buffer, decode never silently returns a Message
containing a value shorter than its field's declared length - every stored
value conforms to its field's declared shape - and whenever fewer bytes
remain than the current field's declared shape requires, the decode loop
fails with the truncation error. -/
theorem c5_truncation :
    (∀ (msg : List Nat) (m : Message), decode_message msg = .ok m →
      ∀ k v, m.lookup k = Option.some v →
        ∃ f, f ∈ trackerMessageFields ∧ f.name = k ∧ fitsShape f v) ∧
      (∀ (fuel b : Nat) (rest : List Nat) (data : Message) (f : Field),
        ¬ b = 0x03 → lookupField b = Option.some f → rest.length < declaredLen f →
        decodeFields (fuel + 1) (b :: rest) data = .error .truncated) := by
  constructor
  · intro msg m h k v hk
    obtain ⟨start, n, _, _, h2, _, _⟩ := decode_message_ok_inv h
    refine decodeFields_values_fit msg.length _ [] m n ?_ h2 k v hk
    intro k' v' hk'
    simp [List.lookup] at hk'
  · intro fuel b rest data f hb hf hlen
    exact decodeFields_truncated fuel b rest data f hb hf hlen

theorem c5_truncation_witness :
    (∃ f, f ∈ trackerMessageFields ∧ f.name = "DATETIME" ∧
      fitsShape f (Value.datetime 2022 1 2 3 4 5)) ∧
      decodeFields 3 [0x15, 230] [] = .error .truncated :=
  ⟨c5_truncation.1 [2, 20, 230, 7, 1, 2, 3, 4, 5, 3, 21, 94]
      [("DATETIME", Value.datetime 2022 1 2 3 4 5)] (by decide) "DATETIME"
      (Value.datetime 2022 1 2 3 4 5) (by decide),
   c5_truncation.2 2 0x15 [230] [] ⟨"LAT", 0x15⟩ (by decide) (by decide) (by decide)⟩

/-! C10: trailing bytes are ignored. -/


lemma getElem?_some_lt {l : List Nat} {i a : Nat} (h : l[i]? = Option.some a) :
    i < l.length :=
  (List.getElem?_eq_some.mp h).1

lemma readPayload_append {f : Field} {rest : List Nat} {v : Value} {flen : Nat}
    (e : List Nat) (hmem : f ∈ trackerMessageFields)
    (h : readPayload f rest = .ok (v, flen)) (hle : flen ≤ rest.length) :
    readPayload f (rest ++ e) = .ok (v, flen) := by
  unfold readPayload at h ⊢
  split at h
  · exact absurd h (by simp)
  case _ n hft =>
    dsimp only at h ⊢
    by_cases hid : f.id = 0x14
    · rw [if_pos hid] at h ⊢
      split at h
      · exact absurd h (by simp)
      · next hcond =>
        have hn : n ≤ rest.length := by
          rw [List.length_take] at hcond
          omega
        rw [List.take_append_of_le_length hn]
        rw [if_neg hcond]
        exact h
    · rw [if_neg hid] at h ⊢
      by_cases hn : 0 < n
      · rw [if_pos hn] at h ⊢
        unfold applyFactor at h ⊢
        rw [factor_none_len hmem hft] at h ⊢
        dsimp only at h ⊢
        simp only [Except.ok.injEq, Prod.mk.injEq] at h
        have hfn : flen = n := h.2.symm
        rw [List.take_append_of_le_length (by omega)]
        simp only [Except.ok.injEq, Prod.mk.injEq]
        exact h
      · rw [if_neg hn] at h ⊢
        exact h
  case _ d hft =>
    dsimp only at h ⊢
    split at h
    · exact absurd h (by simp)
    · next hcond =>
      have hw : d.itemsize ≤ rest.length := by
        rw [List.length_take] at hcond
        omega
      rw [List.take_append_of_le_length hw]
      rw [if_neg hcond]
      exact h
  case _ d cnt hft =>
    dsimp only at h ⊢
    split at h
    · exact absurd h (by simp)
    · next hcond =>
      unfold applyFactor at h ⊢
      rw [factor_none_arr hmem hft] at h ⊢
      dsimp only at h ⊢
      simp only [Except.ok.injEq, Prod.mk.injEq] at h
      have hfn : flen = d.itemsize * cnt := h.2.symm
      rw [List.take_append_of_le_length (by omega)]
      rw [if_neg hcond]
      simp only [Except.ok.injEq, Prod.mk.injEq]
      exact h


lemma decodeFields_append (e : List Nat) :
    ∀ (fuel : Nat) (s : List Nat) (data m : Message) (n : Nat) (fuel' : Nat),
      s.length ≤ fuel' → decodeFields fuel s data = .ok (m, n) →
      decodeFields fuel' (s ++ e) data = .ok (m, n) := by
  intro fuel
  induction fuel with
  | zero => intro s data m n fuel' _ h; simp [decodeFields] at h
  | succ fuel ih =>
    intro s data m n fuel' hlen h
    match s with
    | [] => simp [decodeFields] at h
    | b :: rest =>
      obtain ⟨F', rfl⟩ : ∃ F', fuel' = F' + 1 :=
        ⟨fuel' - 1, by simp at hlen; omega⟩
      rw [List.cons_append]
      simp only [decodeFields] at h ⊢
      by_cases hb : b = 3
      · rw [if_pos hb] at h ⊢
        exact h
      · rw [if_neg hb] at h ⊢
        cases hlf : lookupField b with
        | none => rw [hlf] at h; simp at h
        | some f =>
          rw [hlf] at h
          dsimp only at h ⊢
          cases hrp : readPayload f rest with
          | error er => rw [hrp] at h; simp at h
          | ok vp =>
            rw [hrp] at h
            obtain ⟨v, flen⟩ := vp
            dsimp only at h
            cases hrec : decodeFields fuel (rest.drop flen) (dictInsert data f.name v) with
            | error er => rw [hrec] at h; simp at h
            | ok p =>
              rw [hrec] at h
              obtain ⟨pm, pn⟩ := p
              simp only [Except.ok.injEq, Prod.mk.injEq] at h
              have hne : rest.drop flen ≠ [] := decodeFields_ok_ne_nil (by rw [hrec])
              have hlt : flen < rest.length := by
                by_contra hge
                exact hne (List.drop_eq_nil_iff.mpr (by omega))
              obtain ⟨hmem, _⟩ := lookupField_mem hlf
              rw [readPayload_append e hmem hrp (le_of_lt hlt)]
              dsimp only
              rw [List.drop_append_of_le_length (le_of_lt hlt)]
              rw [ih (rest.drop flen) (dictInsert data f.name v) pm pn F'
                (by simp at hlen ⊢; omega) (by rw [hrec])]
              simp only [Except.ok.injEq, Prod.mk.injEq]
              exact h

lemma checkFrame_append (msg extra : List Nat) (start : Nat) (m : Message)
    (h : checkFrame msg start = .ok m) : checkFrame (msg ++ extra) start = .ok m := by
  obtain ⟨n, h1, h2, h3, h4⟩ := checkFrame_ok_inv h
  have hs : start < msg.length := getElem?_some_lt h1
  have hc1 : start + 1 + n < msg.length := getElem?_some_lt h3
  have hc2 : start + 1 + n + 1 < msg.length := getElem?_some_lt h4
  unfold checkFrame
  rw [List.getElem?_append_left hs, h1]
  dsimp only
  rw [List.drop_append_of_le_length (by omega)]
  rw [decodeFields_append extra msg.length (msg.drop (start + 1)) [] m n
    (msg ++ extra).length (by simp; omega) h2]
  dsimp only
  have htake : (msg ++ extra).take (start + 1 + n) = msg.take (start + 1 + n) :=
    List.take_append_of_le_length (by omega)
  rw [List.getElem?_append_left hc1, h3, htake]
  dsimp only
  rw [if_pos rfl]
  rw [List.getElem?_append_left hc2, h4]
  simp

/-- C10: trailing bytes after the two checksum bytes are silently
ignored: whenever decode accepts a buffer, appending any extra bytes
leaves the decoded Message unchanged. -/
theorem c10_trailing_ignored (msg extra : List Nat) (m : Message)
    (h : decode_message msg = .ok m) :
    decode_message (msg ++ extra) = .ok m := by
  unfold decode_message at h ⊢
  split at h
  · exact absurd h (by simp)
  · next b0 h0 =>
    have h00 : (msg ++ extra)[0]? = Option.some b0 := by
      rw [List.getElem?_append_left (getElem?_some_lt h0)]
      exact h0
    rw [h00]
    exact checkFrame_append msg extra _ m h

theorem c10_trailing_ignored_witness :
    decode_message ([2, 3, 5, 7] ++ [9, 9, 9]) = .ok [] :=
  c10_trailing_ignored [2, 3, 5, 7] [9, 9, 9] [] (by decide)

/-! C6: the 5-byte gateway header. -/


lemma checksum_append_zero {p : List Nat} (l : List Nat) (h : checksum p = (0, 0)) :
    checksum (p ++ l) = checksum l := by
  unfold checksum at h ⊢
  rw [List.foldl_append, h]

lemma decodeFields_fuel_irrel :
    ∀ (fuel : Nat) (s : List Nat) (fuel' : Nat) (data : Message),
      s.length ≤ fuel → s.length ≤ fuel' →
      decodeFields fuel s data = decodeFields fuel' s data := by
  intro fuel
  induction fuel with
  | zero =>
    intro s fuel' data h1 _
    rw [List.length_eq_zero.mp (Nat.le_zero.mp h1)]
    rw [decodeFields_nil, decodeFields_nil]
  | succ fuel ih =>
    intro s fuel' data h1 h2
    match s with
    | [] => rw [decodeFields_nil, decodeFields_nil]
    | b :: rest =>
      obtain ⟨F', rfl⟩ : ∃ F', fuel' = F' + 1 :=
        ⟨fuel' - 1, by simp at h2; omega⟩
      simp only [decodeFields]
      by_cases hb : b = 3
      · rw [if_pos hb, if_pos hb]
      · rw [if_neg hb, if_neg hb]
        cases hlf : lookupField b with
        | none => rfl
        | some f =>
          dsimp only
          cases hrp : readPayload f rest with
          | error er => rfl
          | ok vp =>
            obtain ⟨v, flen⟩ := vp
            dsimp only
            rw [ih (rest.drop flen) F' (dictInsert data f.name v)
              (by simp at h1 ⊢; omega) (by simp at h2 ⊢; omega)]

lemma checkFrame_shift (p f0 : List Nat) (hp : p.length = 5)
    (hcs : checksum p = (0, 0)) :
    checkFrame (p ++ f0) 5 = checkFrame f0 0 := by
  unfold checkFrame
  have h5 : (p ++ f0)[5]? = f0[0]? := by
    rw [List.getElem?_append_right (by omega)]
    rw [hp]
  rw [h5]
  cases hh : f0[0]? with
  | none => rfl
  | some bs =>
    dsimp only
    by_cases hbs : bs = 2
    · rw [if_pos hbs, if_pos hbs]
      have hdrop : (p ++ f0).drop (5 + 1) = f0.drop (0 + 1) := by
        rw [show 5 + 1 = p.length + 1 from by omega]
        rw [List.drop_append]
      rw [hdrop]
      rw [decodeFields_fuel_irrel (p ++ f0).length (f0.drop (0 + 1)) f0.length []
        (by simp; omega) (by simp)]
      cases hdf : decodeFields f0.length (f0.drop (0 + 1)) [] with
      | error e => rfl
      | ok r =>
        obtain ⟨data, n⟩ := r
        dsimp only
        have he1 : (p ++ f0)[5 + 1 + n]? = f0[0 + 1 + n]? := by
          rw [List.getElem?_append_right (by omega), hp]
          congr 1
          omega
        have ht : (p ++ f0).take (5 + 1 + n) = p ++ f0.take (0 + 1 + n) := by
          rw [show 5 + 1 + n = p.length + (0 + 1 + n) from by omega]
          rw [List.take_append]
        have he2 : (p ++ f0)[5 + 1 + n + 1]? = f0[0 + 1 + n + 1]? := by
          rw [List.getElem?_append_right (by omega), hp]
          congr 1
          omega
        rw [he1, ht, checksum_append_zero _ hcs, he2]
    · rw [if_neg hbs, if_neg hbs]

/-- C6 counterexample: decoding a 5-byte prefix followed by a well-formed
frame is not the same as decoding the frame alone: the checksum decode
verifies is computed from the start of the buffer, header included, so a
prefix that perturbs the running checksum makes decoding fail. -/
theorem c6_counterexample :
    decode_message ([1, 0, 0, 0, 0] ++ [2, 3, 5, 7]) = .error .checksumMismatch ∧
      decode_message [2, 3, 5, 7] = .ok [] := by decide

/-- C6 (amended): decoding p ++ f equals decoding f for a 5-byte prefix p
whose first byte is not the start marker and whose checksum state is
neutral (checksum p = (0, 0), e.g. five zero bytes), f beginning with the
start marker; an arbitrary prefix is not skipped harmlessly, because the
verified checksum is computed from the start of the buffer, prefix
included. -/
theorem c6_header_skip (p f0 : List Nat) (b0 : Nat) (hp : p.length = 5)
    (hhead : p[0]? = Option.some b0) (hb0 : ¬ b0 = 2)
    (hcs : checksum p = (0, 0)) (hf : f0[0]? = Option.some 2) :
    decode_message (p ++ f0) = decode_message f0 := by
  unfold decode_message
  have h0 : (p ++ f0)[0]? = Option.some b0 := by
    rw [List.getElem?_append_left (by omega)]
    exact hhead
  rw [h0, hf]
  dsimp only
  rw [if_neg hb0, if_pos rfl]
  exact checkFrame_shift p f0 hp hcs

theorem c6_header_skip_witness :
    decode_message ([0, 0, 0, 0, 0] ++ [2, 3, 5, 7]) = decode_message [2, 3, 5, 7] :=
  c6_header_skip [0, 0, 0, 0, 0] [2, 3, 5, 7] 0 (by decide) (by decide) (by decide)
    (by decide) (by decide)


end AGT

namespace AGT

lemma natToBytesLE_length (w n : Nat) : (natToBytesLE w n).length = w := by
  induction w generalizing n with
  | zero => rfl
  | succ w ih => simp [natToBytesLE, ih]

lemma bytesToNat_natToBytes (w : Nat) :
    ∀ n, n < 2 ^ (8 * w) → bytesToNatLE (natToBytesLE w n) = n := by
  induction w with
  | zero =>
    intro n h
    simp at h
    simp [natToBytesLE, bytesToNatLE, h]
  | succ w ih =>
    intro n h
    have hdiv : n / 256 < 2 ^ (8 * w) := by
      have h8 : 8 * (w + 1) = 8 * w + 8 := by omega
      rw [h8, pow_add] at h
      have : (2 : Nat) ^ 8 = 256 := by norm_num
      rw [this] at h
      omega
    simp only [natToBytesLE, bytesToNatLE]
    rw [ih (n / 256) hdiv]
    omega

lemma emod_two_pow_lt (i : Int) (w : Nat) :
    (i % ((2 ^ (8 * w) : Nat) : Int)).toNat < 2 ^ (8 * w) := by
  have hN : (0:Int) < ((2 ^ (8 * w) : Nat) : Int) := by positivity
  have h1 : 0 ≤ i % ((2 ^ (8 * w) : Nat) : Int) := Int.emod_nonneg i (by omega)
  have h2 : i % ((2 ^ (8 * w) : Nat) : Int) < ((2 ^ (8 * w) : Nat) : Int) :=
    Int.emod_lt_of_pos i hN
  omega

lemma intToBytesLE_length (w : Nat) (i : Int) : (intToBytesLE w i).length = w := by
  unfold intToBytesLE
  exact natToBytesLE_length _ _

/-- Unsigned round trip: an integer in [0, 2^(8w)) survives the wrap,
byte serialisation and unsigned read. -/
lemma bytesToNat_intToBytes_unsigned (w : Nat) (i : Int)
    (h1 : 0 ≤ i) (h2 : i < ((2 ^ (8 * w) : Nat) : Int)) :
    (bytesToNatLE (intToBytesLE w i) : Int) = i := by
  unfold intToBytesLE
  rw [bytesToNat_natToBytes w _ (emod_two_pow_lt i w)]
  rw [Int.emod_eq_of_lt h1 h2]
  omega

/-- Signed round trip: an integer in [-2^(8w-1), 2^(8w-1)) survives the
two's-complement wrap, byte serialisation and signed read. -/
lemma toSigned_intToBytes (w : Nat) (hw : 0 < w) (i : Int)
    (h1 : -((2 ^ (8 * w - 1) : Nat) : Int) ≤ i)
    (h2 : i < ((2 ^ (8 * w - 1) : Nat) : Int)) :
    toSigned w (bytesToNatLE (intToBytesLE w i)) = i := by
  have hNH : (2 : Nat) ^ (8 * w) = 2 * 2 ^ (8 * w - 1) := by
    have h8 : 8 * w - 1 + 1 = 8 * w := by omega
    calc (2:Nat) ^ (8 * w) = 2 ^ (8 * w - 1 + 1) := by rw [h8]
    _ = 2 ^ (8 * w - 1) * 2 := pow_succ 2 _
    _ = 2 * 2 ^ (8 * w - 1) := by ring
  have hNN : ((2 ^ (8 * w) : Nat) : Int) = 2 * ((2 ^ (8 * w - 1) : Nat) : Int) := by
    exact_mod_cast congrArg (fun n : Nat => (n : Int)) hNH
  have hCC : (2 : Int) ^ (8 * w) = ((2 ^ (8 * w) : Nat) : Int) := by
    push_cast
    ring
  unfold intToBytesLE
  rw [bytesToNat_natToBytes w _ (emod_two_pow_lt i w)]
  unfold toSigned
  rcases le_or_lt 0 i with hpos | hneg
  · have hmod : i % ((2 ^ (8 * w) : Nat) : Int) = i :=
      Int.emod_eq_of_lt hpos (by omega)
    rw [hmod]
    rw [if_pos (by omega)]
    omega
  · have h3 : (i + (2 ^ (8 * w) : Nat)) % (((2 ^ (8 * w) : Nat)) : Int) =
        i % ((2 ^ (8 * w) : Nat) : Int) := by
      have := Int.add_mul_emod_self_left (a := i)
        (b := (((2 ^ (8 * w) : Nat)) : Int)) (c := 1)
      simpa using this
    have hmod : i % ((2 ^ (8 * w) : Nat) : Int) = i + (2 ^ (8 * w) : Nat) := by
      rw [← h3]
      exact Int.emod_eq_of_lt (by omega) (by omega)
    rw [hmod]
    rw [if_neg (by omega)]
    omega

end AGT

namespace AGT

/-- Integer range of a dtype; float32 is excluded (float values are
modelled by bit patterns, not Ints). -/
def inIntRange (d : Dtype) (i : Int) : Prop :=
  match d with
  | .uint8 => 0 ≤ i ∧ i < 256
  | .uint16 => 0 ≤ i ∧ i < 65536
  | .uint32 => 0 ≤ i ∧ i < 4294967296
  | .int16 => -32768 ≤ i ∧ i < 32768
  | .int32 => -2147483648 ≤ i ∧ i < 2147483648
  | .float32 => False

lemma decodeIntElem_roundTrip (d : Dtype) (i : Int) (h : inIntRange d i) :
    decodeIntElem d (intToBytesLE d.itemsize i) = i := by
  cases d
  case uint8 =>
    obtain ⟨h1, h2⟩ := h
    simpa [decodeIntElem, Dtype.isSigned, Dtype.itemsize] using
      bytesToNat_intToBytes_unsigned 1 i h1 (by exact_mod_cast h2)
  case uint16 =>
    obtain ⟨h1, h2⟩ := h
    simpa [decodeIntElem, Dtype.isSigned, Dtype.itemsize] using
      bytesToNat_intToBytes_unsigned 2 i h1 (by norm_num; exact_mod_cast h2)
  case uint32 =>
    obtain ⟨h1, h2⟩ := h
    simpa [decodeIntElem, Dtype.isSigned, Dtype.itemsize] using
      bytesToNat_intToBytes_unsigned 4 i h1 (by norm_num; exact_mod_cast h2)
  case int16 =>
    obtain ⟨h1, h2⟩ := h
    simpa [decodeIntElem, Dtype.isSigned, Dtype.itemsize] using
      toSigned_intToBytes 2 (by norm_num) i (by norm_num; omega) (by norm_num; omega)
  case int32 =>
    obtain ⟨h1, h2⟩ := h
    simpa [decodeIntElem, Dtype.isSigned, Dtype.itemsize] using
      toSigned_intToBytes 4 (by norm_num) i (by norm_num; omega) (by norm_num; omega)
  case float32 => exact absurd h (by simp [inIntRange])

end AGT

namespace AGT

/-- A legal value for a field, per the amended round-trip claim: scalars in
their dtype's range (scaled fields holding an exact multiple of their
factor), float32 values as bit patterns, arrays of the declared count with
in-range elements, a calendar-valid composed date-time, the all-zero blob
for fixed-length placeholder fields, and the absence marker for zero-length
fields. -/
def legalValue (f : Field) (v : Value) : Prop :=
  match List.lookup f.id FIELD_TYPE with
  | Option.none => False
  | Option.some (.len n) =>
    if f.id = 0x14 then
      ∃ y mo dy hr mi s, v = .datetime y mo dy hr mi s ∧
        validDatetime y mo dy hr mi s = true
    else if 0 < n then v = .bytes (List.replicate n 0)
    else v = .none
  | Option.some (.scalar d) =>
    match List.lookup f.id CONVERSION_FACTOR with
    | Option.some c => ∃ i : Int, inIntRange d i ∧ v = .rat ((i : ℚ) * c)
    | Option.none =>
      match d with
      | .float32 => ∃ fb, fb < 2 ^ 32 ∧ v = .floatBits fb
      | _ => ∃ i, inIntRange d i ∧ v = .int i
  | Option.some (.arr d cnt) =>
    ∃ xs, v = .intArray xs ∧ xs.length = cnt ∧ ∀ x ∈ xs, inIntRange d x

lemma lookup_mem_pairs {α β : Type} [BEq α] [LawfulBEq α] {l : List (α × β)}
    {k : α} {v : β} (h : List.lookup k l = Option.some v) : (k, v) ∈ l := by
  induction l with
  | nil => simp [List.lookup] at h
  | cons p rest ih =>
    obtain ⟨a, b⟩ := p
    rw [List.lookup] at h
    by_cases hk : k = a
    · subst hk
      simp at h
      simp [h]
    · rw [beq_eq_false_iff_ne.mpr hk] at h
      simp at h
      exact List.mem_cons_of_mem _ (ih h)

lemma factor_lookup_nonzero {fid : Nat} {c : ℚ}
    (h : List.lookup fid CONVERSION_FACTOR = Option.some c) : c ≠ 0 :=
  reg_factor_nonzero (fid, c) (lookup_mem_pairs h)

lemma truncQ_intCast (i : Int) : truncQ ((i : ℚ)) = i := by
  unfold truncQ
  rw [Rat.num_intCast, Rat.den_intCast]
  exact Int.tdiv_one i

lemma reg_arr_int : ∀ f ∈ trackerMessageFields,
    (match List.lookup f.id FIELD_TYPE with
     | Option.some (.arr d _) => d.isIntLike
     | _ => true) = true := by decide

lemma flatMap_intToBytes_length (w : Nat) (xs : List Int) :
    (xs.flatMap (fun x => intToBytesLE w x)).length = w * xs.length := by
  induction xs with
  | nil => simp
  | cons x xs ih =>
    simp only [List.flatMap_cons, List.length_append, ih, intToBytesLE_length,
      List.length_cons]
    ring

lemma readElemsN_flatMap (d : Dtype) :
    ∀ xs : List Int, (∀ x ∈ xs, inIntRange d x) → ∀ rest,
      readElemsN d xs.length
        (xs.flatMap (fun x => intToBytesLE d.itemsize x) ++ rest) = xs := by
  intro xs
  induction xs with
  | nil => intro _ rest; rfl
  | cons x xs ih =>
    intro hx rest
    simp only [List.flatMap_cons, List.length_cons, List.append_assoc]
    simp only [readElemsN]
    have hlen : (intToBytesLE d.itemsize x).length = d.itemsize :=
      intToBytesLE_length _ _
    rw [List.take_left' hlen, List.drop_left' hlen]
    rw [decodeIntElem_roundTrip d x (hx x (by simp))]
    rw [ih (fun y hy => hx y (by simp [hy])) rest]

end AGT

namespace AGT

lemma readScalar_raw (d : Dtype) (hd : d.isIntLike = true) (s : List Nat) :
    (match d with
     | Dtype.float32 => Value.floatBits (bytesToNatLE s)
     | _ => Value.int (decodeIntElem d s)) = Value.int (decodeIntElem d s) := by
  cases d
  case float32 => exact absurd hd (by decide)
  all_goals rfl

lemma isIntLike_of_ne_float {d : Dtype} (h : ¬ d = Dtype.float32) :
    d.isIntLike = true := by
  cases d <;> simp_all [Dtype.isIntLike]

lemma encodePayload_roundTrip (f : Field) (v : Value)
    (hmem : f ∈ trackerMessageFields) (hleg : legalValue f v) :
    ∃ bs, encodePayload f v = .ok bs ∧
      ∀ rest, readPayload f (bs ++ rest) = .ok (v, bs.length) := by
  unfold legalValue at hleg
  split at hleg
  · exact absurd hleg (by simp)
  case _ n hft =>
    by_cases hid : f.id = 0x14
    · rw [if_pos hid] at hleg
      obtain ⟨y, mo, dy, hr, mi, s, hv, hvalid⟩ := hleg
      subst hv
      obtain rfl : n = 7 := by
        rw [hid, reg_datetime_type] at hft
        injection hft with hft'
        injection hft' with hft2
        exact hft2.symm
      obtain ⟨b1, b2, b3, b4, b5, b6⟩ := validDatetime_bounds hvalid
      refine ⟨[y % 256, y / 256, mo, dy, hr, mi, s], ?_, ?_⟩
      · simp [encodePayload, hid, b1, b2, b3, b4, b5, b6]
      · intro rest
        unfold readPayload
        rw [hft]
        dsimp only
        rw [if_pos hid]
        simp only [List.cons_append, List.nil_append, List.take_succ_cons,
          List.take_zero, List.length_cons, List.length_nil, List.getD_cons_zero,
          List.getD_cons_succ]
        rw [Nat.mod_add_div y 256]
        simp [hvalid, applyFactor, hid, reg_datetime_nofactor]
    · rw [if_neg hid] at hleg
      by_cases hn : 0 < n
      · rw [if_pos hn] at hleg
        subst hleg
        refine ⟨List.replicate n 0, ?_, ?_⟩
        · unfold encodePayload
          rw [if_neg hid, hft]
        · intro rest
          unfold readPayload
          rw [hft]
          dsimp only
          rw [if_neg hid, if_pos hn]
          unfold applyFactor
          rw [factor_none_len hmem hft]
          dsimp only
          rw [List.take_left' (List.length_replicate n 0)]
          rw [List.length_replicate]
      · rw [if_neg hn] at hleg
        subst hleg
        refine ⟨List.replicate n 0, ?_, ?_⟩
        · unfold encodePayload
          rw [if_neg hid, hft]
        · intro rest
          obtain rfl : n = 0 := by omega
          unfold readPayload
          rw [hft]
          dsimp only
          rw [if_neg hid, if_neg hn]
          unfold applyFactor
          rw [factor_none_len hmem hft]
          simp
  case _ d hft =>
    have hid : ¬ f.id = 0x14 := by
      intro h
      rw [h, reg_datetime_type] at hft
      simp at hft
    split at hleg
    case _ c hfac =>
      obtain ⟨i, hir, hv⟩ := hleg
      subst hv
      have hint : d.isIntLike = true := by
        have := reg_factor_int_scalar f hmem (by rw [hfac]; rfl)
        rw [hft] at this
        simpa using this
      have hc : c ≠ 0 := factor_lookup_nonzero hfac
      have hlenb : (intToBytesLE d.itemsize i).length = d.itemsize :=
        intToBytesLE_length _ _
      refine ⟨intToBytesLE d.itemsize i, ?_, ?_⟩
      · unfold encodePayload
        rw [if_neg hid, hft]
        dsimp only
        unfold encodeScalar
        rw [hfac]
        dsimp only
        rw [if_pos hint]
        rw [mul_div_cancel_right₀ _ hc]
        rw [truncQ_intCast]
      · intro rest
        unfold readPayload
        rw [hft]
        dsimp only
        rw [List.take_left' hlenb]
        rw [if_neg (by rw [hlenb]; omega)]
        unfold applyFactor
        rw [hlenb]
        cases d
        case float32 => exact absurd hint (by decide)
        all_goals
          dsimp only
          rw [decodeIntElem_roundTrip _ i hir]
          rw [hfac]
    case _ hfac =>
      split at hleg
      case _ =>
        -- d = float32
        obtain ⟨fb, hfb, hv⟩ := hleg
        subst hv
        have hm : fb % 2 ^ 32 = fb := Nat.mod_eq_of_lt hfb
        have hlenb : (natToBytesLE 4 fb).length = 4 := natToBytesLE_length _ _
        refine ⟨natToBytesLE 4 fb, ?_, ?_⟩
        · unfold encodePayload
          rw [if_neg hid, hft]
          dsimp only
          unfold encodeScalar
          rw [hfac]
          dsimp only
          rw [if_pos rfl, hm]
        · intro rest
          unfold readPayload
          rw [hft]
          dsimp only
          rw [show Dtype.float32.itemsize = 4 from rfl]
          rw [List.take_left' hlenb]
          rw [if_neg (by rw [hlenb]; omega)]
          rw [bytesToNat_natToBytes 4 fb (by norm_num; exact hfb)]
          unfold applyFactor
          rw [hfac]
          dsimp only
          rw [hlenb]
      case _ hnf =>
        obtain ⟨i, hir, hv⟩ := hleg
        subst hv
        have hint : d.isIntLike = true := isIntLike_of_ne_float hnf
        have hlenb : (intToBytesLE d.itemsize i).length = d.itemsize :=
          intToBytesLE_length _ _
        refine ⟨intToBytesLE d.itemsize i, ?_, ?_⟩
        · unfold encodePayload
          rw [if_neg hid, hft]
          dsimp only
          unfold encodeScalar
          rw [hfac]
          dsimp only
          rw [if_pos hint]
        · intro rest
          unfold readPayload
          rw [hft]
          dsimp only
          rw [List.take_left' hlenb]
          rw [if_neg (by rw [hlenb]; omega)]
          unfold applyFactor
          rw [hlenb]
          cases d
          case float32 => exact absurd hint (by decide)
          all_goals
            dsimp only
            rw [decodeIntElem_roundTrip _ i hir]
            rw [hfac]
  case _ d cnt hft =>
    have hid : ¬ f.id = 0x14 := by
      intro h
      rw [h, reg_datetime_type] at hft
      simp at hft
    obtain ⟨xs, hv, hxl, hxr⟩ := hleg
    subst hv
    have hint : d.isIntLike = true := by
      have := reg_arr_int f hmem
      rw [hft] at this
      simpa using this
    have hfac := factor_none_arr hmem hft
    have hblen : (xs.flatMap (fun x => intToBytesLE d.itemsize x)).length =
        d.itemsize * cnt := by
      rw [flatMap_intToBytes_length, hxl]
    refine ⟨xs.flatMap (fun x => intToBytesLE d.itemsize x), ?_, ?_⟩
    · unfold encodePayload
      rw [if_neg hid, hft]
      dsimp only
      rw [if_pos hxl, hfac]
      dsimp only
      rw [if_pos hint]
    · intro rest
      unfold readPayload
      rw [hft]
      dsimp only
      rw [List.take_left' hblen]
      rw [hblen]
      rw [if_neg (by simp [Nat.mul_mod_right])]
      rw [Nat.mul_div_cancel_left cnt (itemsize_pos d)]
      rw [← hxl]
      have := readElemsN_flatMap d xs hxr []
      rw [List.append_nil] at this
      rw [this]
      unfold applyFactor
      rw [hfac]

end AGT

namespace AGT

/-- What the decoder reconstructs from an encoded message: the fields of
fs present in m, inserted in order into data. -/
def processFields (m : Message) : List Field → Message → Message
  | [], data => data
  | f :: fs, data =>
    match m.lookup f.name with
    | Option.none => processFields m fs data
    | Option.some v => processFields m fs (dictInsert data f.name v)

/-- A legal message maps only registry names other than the end marker to
legal values for their declared shapes. -/
def LegalMessage (m : Message) : Prop :=
  ∀ k v, m.lookup k = Option.some v →
    ∃ f, f ∈ trackerMessageFields ∧ f.name = k ∧ ¬ f.id = 0x03 ∧ legalValue f v

lemma encodeFields_roundTrip (m : Message) (hleg : LegalMessage m) :
    ∀ fs : List Field, (∀ f ∈ fs, f ∈ trackerMessageFields) →
      ∃ body, encodeFields m fs = .ok body ∧
        ∀ (tail : List Nat) (data : Message) (fuel : Nat),
          (body ++ 3 :: tail).length ≤ fuel →
          decodeFields fuel (body ++ 3 :: tail) data =
            .ok (processFields m fs data, body.length + 1) := by
  intro fs
  induction fs with
  | nil =>
    intro _
    refine ⟨[], rfl, ?_⟩
    intro tail data fuel hfuel
    simp only [List.nil_append, List.length_cons] at hfuel ⊢
    obtain ⟨F, rfl⟩ : ∃ F, fuel = F + 1 := ⟨fuel - 1, by omega⟩
    simp [decodeFields, processFields]
  | cons f fs ih =>
    intro hmems
    have hmem : f ∈ trackerMessageFields := hmems f (by simp)
    obtain ⟨bodyRest, hencR, hdecR⟩ := ih (fun g hg => hmems g (by simp [hg]))
    unfold encodeFields
    cases hlf : m.lookup f.name with
    | none =>
      rw [hencR]
      refine ⟨bodyRest, rfl, ?_⟩
      intro tail data fuel hfuel
      rw [hdecR tail data fuel hfuel]
      simp [processFields, hlf]
    | some v =>
      obtain ⟨g, hgmem, hgname, hgid, hgleg⟩ := hleg f.name v hlf
      have hgf : g = f := reg_name_inj g hgmem f hmem hgname
      rw [hgf] at hgid hgleg
      obtain ⟨bs, henc, hread⟩ := encodePayload_roundTrip f v hmem hgleg
      dsimp only
      rw [henc, hencR]
      refine ⟨f.id :: (bs ++ bodyRest), rfl, ?_⟩
      intro tail data fuel hfuel
      simp only [List.cons_append, List.length_cons] at hfuel ⊢
      obtain ⟨F, rfl⟩ : ∃ F, fuel = F + 1 := ⟨fuel - 1, by omega⟩
      simp only [decodeFields]
      rw [if_neg (by simpa using hgid)]
      rw [reg_lookup_self f hmem]
      dsimp only
      rw [List.append_assoc]
      rw [hread (bodyRest ++ 3 :: tail)]
      dsimp only
      rw [List.drop_left]
      rw [hdecR tail (dictInsert data f.name v) F (by
        simp only [List.length_append, List.length_cons] at hfuel ⊢
        omega)]
      dsimp only
      have hpf : processFields m (f :: fs) data = processFields m fs (dictInsert data f.name v) := by
        simp only [processFields, hlf]
      rw [hpf]
      simp only [Except.ok.injEq, Prod.mk.injEq, List.length_append]
      exact ⟨trivial, by omega⟩

lemma decode_encode (m : Message) (hleg : LegalMessage m) :
    ∃ buf, encode_message m = .ok buf ∧
      decode_message buf = .ok (processFields m trackerMessageFields []) := by
  obtain ⟨body, henc, hdec⟩ :=
    encodeFields_roundTrip m hleg trackerMessageFields (fun f hf => hf)
  set core : List Nat := 2 :: (body ++ [3]) with hcore
  set cs : Nat × Nat := checksum core with hcs
  refine ⟨core ++ [cs.1, cs.2], ?_, ?_⟩
  · unfold encode_message
    rw [henc]
  · have hbuf : core ++ [cs.1, cs.2] = 2 :: (body ++ 3 :: [cs.1, cs.2]) := by
      simp [hcore]
    unfold decode_message
    rw [hbuf]
    simp only [List.getElem?_cons_zero]
    rw [if_pos trivial]
    unfold checkFrame
    simp only [List.getElem?_cons_zero]
    rw [if_pos trivial]
    rw [List.drop_one, List.tail_cons]
    rw [hdec [cs.1, cs.2] [] (2 :: (body ++ 3 :: [cs.1, cs.2])).length (by simp)]
    dsimp only
    rw [show 0 + 1 + (body.length + 1) = (body.length + 1) + 1 from by omega]
    have hidx1 : (2 :: (body ++ 3 :: [cs.1, cs.2]))[(body.length + 1) + 1]? =
        Option.some cs.1 := by
      rw [List.getElem?_cons_succ]
      rw [List.getElem?_append_right (by omega)]
      simp
    have hidx2 : (2 :: (body ++ 3 :: [cs.1, cs.2]))[(body.length + 1) + 1 + 1]? =
        Option.some cs.2 := by
      rw [List.getElem?_cons_succ]
      rw [List.getElem?_append_right (by omega)]
      simp
    have htake : List.take ((body.length + 1) + 1) (2 :: (body ++ 3 :: [cs.1, cs.2])) =
        core := by
      rw [List.take_succ_cons, List.take_append]
      simp [hcore]
    rw [hidx1]
    dsimp only
    rw [htake, ← hcs, if_pos rfl, hidx2]
    dsimp only
    rw [if_pos rfl]

lemma lookup_processFields (m : Message) :
    ∀ (fs : List Field) (data : Message) (k : String),
      (processFields m fs data).lookup k =
        if (∃ f ∈ fs, f.name = k) ∧ (m.lookup k).isSome
        then m.lookup k else data.lookup k := by
  intro fs
  induction fs with
  | nil =>
    intro data k
    simp [processFields]
  | cons f fs ih =>
    intro data k
    have hpf0 : processFields m (f :: fs) data =
        match m.lookup f.name with
        | Option.none => processFields m fs data
        | Option.some v => processFields m fs (dictInsert data f.name v) := by
      simp only [processFields]
    by_cases hk : f.name = k
    · subst hk
      cases hlf : m.lookup f.name with
      | none =>
        rw [hpf0, hlf, ih data f.name]
        have h1 : ¬((∃ g ∈ fs, g.name = f.name) ∧
            (List.lookup f.name m).isSome = true) := by
          rintro ⟨-, hs⟩
          rw [hlf] at hs
          simp at hs
        rw [if_neg h1]
        simp
      | some v =>
        rw [hpf0, hlf, ih (dictInsert data f.name v) f.name]
        have houter : (∃ g ∈ f :: fs, g.name = f.name) ∧
            (Option.some v).isSome = true := ⟨⟨f, by simp, rfl⟩, rfl⟩
        by_cases hc : (∃ g ∈ fs, g.name = f.name) ∧
            (List.lookup f.name m).isSome = true
        · rw [if_pos hc, if_pos houter]
          exact hlf
        · rw [if_neg hc, if_pos houter]
          rw [lookup_dictInsert data f.name f.name v, if_pos rfl]
    · rw [hpf0]
      have hcond : ((∃ g ∈ f :: fs, g.name = k) ∧ (m.lookup k).isSome) ↔
          ((∃ g ∈ fs, g.name = k) ∧ (m.lookup k).isSome) := by
        constructor
        · rintro ⟨⟨g, hg, hgk⟩, hs⟩
          rcases List.mem_cons.mp hg with rfl | hg2
          · exact absurd hgk hk
          · exact ⟨⟨g, hg2, hgk⟩, hs⟩
        · rintro ⟨⟨g, hg, hgk⟩, hs⟩
          exact ⟨⟨g, List.mem_cons.mpr (Or.inr hg), hgk⟩, hs⟩
      cases hlf : m.lookup f.name with
      | none =>
        dsimp only
        rw [ih data k]
        by_cases hc : (∃ g ∈ fs, g.name = k) ∧ (List.lookup k m).isSome = true
        · rw [if_pos hc, if_pos (hcond.mpr hc)]
        · rw [if_neg hc, if_neg (fun h => hc (hcond.mp h))]
      | some v =>
        dsimp only
        rw [ih (dictInsert data f.name v) k]
        have hdi : List.lookup k (dictInsert data f.name v) = List.lookup k data := by
          rw [lookup_dictInsert data f.name k v, if_neg (fun h => hk h.symm)]
        rw [hdi]
        by_cases hc : (∃ g ∈ fs, g.name = k) ∧ (List.lookup k m).isSome = true
        · rw [if_pos hc, if_pos (hcond.mpr hc)]
        · rw [if_neg hc, if_neg (fun h => hc (hcond.mp h))]

lemma mW_legal : LegalMessage [("RBHEAD", Value.bytes [0, 0, 0, 0])] := by
  intro k v h
  rw [lookup_cons_pair] at h
  by_cases hk : k = "RBHEAD"
  · rw [if_pos hk] at h
    injection h with h
    subst h
    exact ⟨⟨"RBHEAD", 0x52⟩, by decide, hk.symm, by decide, rfl⟩
  · rw [if_neg hk] at h
    simp [List.lookup] at h

/-- C1 (amended): for every Message that maps only registry-covered field
names to legal values of their declared shapes - where a plain-length
field's legal value is the zero blob the encoder actually emits - the
buffer produced by encode_message decodes successfully to a Message with
exactly the same key-value bindings. Scaled fields carry exact multiples
of their conversion factor, so the round trip is exact. -/
theorem c1_round_trip (m : Message) (hleg : LegalMessage m) :
    ∃ buf M, encode_message m = .ok buf ∧ decode_message buf = .ok M ∧
      ∀ k, List.lookup k M = List.lookup k m := by
  obtain ⟨buf, henc, hdec⟩ := decode_encode m hleg
  refine ⟨buf, processFields m trackerMessageFields [], henc, hdec, ?_⟩
  intro k
  rw [lookup_processFields m trackerMessageFields [] k]
  cases hlk : List.lookup k m with
  | none =>
    rw [if_neg]
    · simp [List.lookup]
    · rintro ⟨-, hs⟩
      simp at hs
  | some v =>
    obtain ⟨f, hf, hfk, -, -⟩ := hleg k v hlk
    rw [if_pos ⟨⟨f, hf, hfk⟩, by simp [hlk]⟩]

theorem c1_round_trip_witness :
    ∃ buf M, encode_message [("RBHEAD", Value.bytes [0, 0, 0, 0])] = .ok buf ∧
      decode_message buf = .ok M ∧
      ∀ k, List.lookup k M = List.lookup k [("RBHEAD", Value.bytes [0, 0, 0, 0])] :=
  c1_round_trip [("RBHEAD", Value.bytes [0, 0, 0, 0])] mW_legal

/-- C1 counterexample to the claim as stated: the Message mapping RBHEAD
to the legally-shaped 4-byte blob 01 00 00 00 encodes (the encoder emits
zero bytes for plain-length fields regardless of the stored value) and
decodes back to the zero blob, so decode-of-encode changes the value. -/
theorem c1_counterexample :
    encode_message [("RBHEAD", Value.bytes [1, 0, 0, 0])] =
      .ok [2, 82, 0, 0, 0, 0, 3, 87, 253] ∧
    decode_message [2, 82, 0, 0, 0, 0, 3, 87, 253] =
      .ok [("RBHEAD", Value.bytes [0, 0, 0, 0])] ∧
    List.lookup ("RBHEAD") [("RBHEAD", Value.bytes [0, 0, 0, 0])] ≠
      List.lookup ("RBHEAD") [("RBHEAD", Value.bytes [1, 0, 0, 0])] := by
  decide

lemma encodeFields_congr (m1 m2 : Message) (h : ∀ k, List.lookup k m1 = List.lookup k m2) :
    ∀ fs : List Field, encodeFields m1 fs = encodeFields m2 fs := by
  intro fs
  induction fs with
  | nil => rfl
  | cons f fs ih =>
    simp only [encodeFields, h, ih]

lemma dictInsert_fresh (data : Message) (k : String) (v : Value)
    (h : ∀ p ∈ data, p.1 ≠ k) : dictInsert data k v = data ++ [(k, v)] := by
  induction data with
  | nil => rfl
  | cons p rest ih =>
    obtain ⟨k0, v0⟩ := p
    have hk0 : k0 ≠ k := h (k0, v0) (by simp)
    simp only [dictInsert, if_neg hk0, List.cons_append]
    rw [ih (fun q hq => h q (by simp [hq]))]

lemma keys_processFields (m : Message) :
    ∀ (fs : List Field) (data : Message),
      (fs.map Field.name).Nodup →
      (∀ f ∈ fs, ∀ p ∈ data, p.1 ≠ f.name) →
      (processFields m fs data).map Prod.fst =
        data.map Prod.fst ++
          (fs.filter (fun f => (List.lookup f.name m).isSome)).map Field.name := by
  intro fs
  induction fs with
  | nil =>
    intro data _ _
    simp [processFields]
  | cons f fs ih =>
    intro data hnd hfresh
    have hpf0 : processFields m (f :: fs) data =
        match List.lookup f.name m with
        | Option.none => processFields m fs data
        | Option.some v => processFields m fs (dictInsert data f.name v) := by
      simp only [processFields]
    rw [hpf0]
    have hnd2 : (fs.map Field.name).Nodup := by
      simp only [List.map_cons, List.nodup_cons] at hnd
      exact hnd.2
    have hfn : f.name ∉ fs.map Field.name := by
      simp only [List.map_cons, List.nodup_cons] at hnd
      exact hnd.1
    cases hlf : List.lookup f.name m with
    | none =>
      dsimp only
      rw [ih data hnd2 (fun g hg p hp => hfresh g (by simp [hg]) p hp)]
      rw [List.filter_cons, if_neg (by simp [hlf])]
    | some v =>
      dsimp only
      rw [dictInsert_fresh data f.name v (fun p hp => hfresh f (by simp) p hp)]
      rw [ih (data ++ [(f.name, v)]) hnd2 (by
        intro g hg p hp
        rcases List.mem_append.mp hp with hp2 | hp2
        · exact hfresh g (by simp [hg]) p hp2
        · have hpv : p = (f.name, v) := by simpa using hp2
          subst hpv
          intro hcontra
          have hc2 : f.name = g.name := hcontra
          exact hfn (by rw [hc2]; exact List.mem_map.mpr ⟨g, hg, rfl⟩))]
      rw [List.filter_cons, if_pos (by simp [hlf])]
      simp

/-- C9: two Messages with the same key-value bindings encode to identical
buffers regardless of insertion order, and for every legal Message the
decoded image of its encoding lists its keys in the Registry's canonical
declaration order (the registry filtered to the fields present). -/
theorem c9_canonical_order :
    (∀ m1 m2 : Message, (∀ k, List.lookup k m1 = List.lookup k m2) →
        encode_message m1 = encode_message m2) ∧
    (∀ (m : Message) (buf : List Nat) (M : Message),
        LegalMessage m → encode_message m = .ok buf →
        decode_message buf = .ok M →
        M.map Prod.fst =
          (trackerMessageFields.filter
            (fun f => (List.lookup f.name m).isSome)).map Field.name) := by
  constructor
  · intro m1 m2 h
    unfold encode_message
    rw [encodeFields_congr m1 m2 h trackerMessageFields]
  · intro m buf M hleg henc hdec
    obtain ⟨buf2, henc2, hdec2⟩ := decode_encode m hleg
    rw [henc] at henc2
    injection henc2 with hb
    rw [← hb] at hdec2
    rw [hdec] at hdec2
    injection hdec2 with hM
    rw [hM]
    have hkeys := keys_processFields m trackerMessageFields [] reg_names_nodup
      (fun f _ p hp => absurd hp (List.not_mem_nil p))
    simpa using hkeys

lemma mo1_legal : LegalMessage [("SATS", Value.int 4), ("SWVER", Value.int 1)] := by
  intro k v h
  rw [lookup_cons_pair, lookup_cons_pair] at h
  by_cases h1 : k = "SATS"
  · rw [if_pos h1] at h
    injection h with h
    subst h
    exact ⟨⟨"SATS", 0x1a⟩, by decide, h1.symm, by decide, ⟨4, ⟨by norm_num, by norm_num⟩, rfl⟩⟩
  · rw [if_neg h1] at h
    by_cases h2 : k = "SWVER"
    · rw [if_pos h2] at h
      injection h with h
      subst h
      exact ⟨⟨"SWVER", 0x04⟩, by decide, h2.symm, by decide, ⟨1, ⟨by norm_num, by norm_num⟩, rfl⟩⟩
    · rw [if_neg h2] at h
      simp [List.lookup] at h

theorem c9_canonical_order_witness :
    encode_message [("SATS", Value.int 4), ("SWVER", Value.int 1)] =
      encode_message [("SWVER", Value.int 1), ("SATS", Value.int 4)] ∧
    ([("SWVER", Value.int 1), ("SATS", Value.int 4)] : Message).map Prod.fst =
      (trackerMessageFields.filter
        (fun f => (List.lookup f.name
          [("SATS", Value.int 4), ("SWVER", Value.int 1)]).isSome)).map Field.name := by
  constructor
  · refine c9_canonical_order.1 _ _ ?_
    intro k
    rw [lookup_cons_pair, lookup_cons_pair, lookup_cons_pair, lookup_cons_pair]
    by_cases h1 : k = "SATS"
    · rw [if_pos h1, if_neg (by rw [h1]; decide), if_pos h1]
    · rw [if_neg h1, if_neg h1]
  · refine c9_canonical_order.2 [("SATS", Value.int 4), ("SWVER", Value.int 1)]
      [2, 4, 1, 26, 4, 3, 40, 125] [("SWVER", Value.int 1), ("SATS", Value.int 4)]
      mo1_legal (by decide) (by decide)


end AGT

